import Mathlib

/-!
# tdev: provisioning a tmux session from a declarative configuration

A shallow embedding of `main.go`.  The program is a single-threaded translator
from a decoded configuration (`Session`) to an ordered sequence of external
`tmux` invocations.  The embedding threads the three package-level variables
(`rootDir`, `dryRun`, `runWall`) through an explicit `State`, records every
process the program starts, and takes the outcome of each started process from
a `World`.

Library functions the program calls (`strings.HasPrefix`, `filepath.Join`,
`fmt.Sprintf`, `user.Current`, `os.Getwd`, `os/exec`) are modelled after the
Go standard library on Unix.
-/

namespace Tdev

/-! ## Configuration tree -/

/-- One pane of a window (`type Pane struct`). -/
structure Pane where
  Path : String
  Cmd : String
  Hor : Bool
  deriving DecidableEq, Repr

/-- One window of a session (`type Window struct`). -/
structure Window where
  Name : String
  Path : String
  Cmd : String
  Panes : List Pane
  deriving DecidableEq, Repr

/-- The decoded configuration file (`type Session struct`). -/
structure Session where
  Name : String
  Root : String
  Windows : List Window
  deriving DecidableEq, Repr

/-! ## Standard library: strings and lexical paths -/

namespace strings

/-- Go `strings.HasPrefix`: `s` begins with `pre`. -/
def HasPrefix (s pre : String) : Bool :=
  pre.data.isPrefixOf s.data

end strings

namespace filepath

/-- One step of the lexical path cleaner over the elements between separators.
The stack holds the elements kept so far, innermost first.  Empty elements and
`.` are dropped; `..` removes the preceding real element, is dropped at the
root of a rooted path, and is kept at the start of a relative one. -/
def cleanStep (rooted : Bool) (stk : List (List Char)) (e : List Char) : List (List Char) :=
  if e = [] ∨ e = ['.'] then stk
  else if e = ['.', '.'] then
    match stk with
    | [] => if rooted then [] else [e]
    | top :: rest => if top = ['.', '.'] then e :: stk else rest
  else e :: stk

/-- The elements that remain after cleaning, outermost first. -/
def cleanElems (rooted : Bool) (path : List Char) : List (List Char) :=
  ((path.splitOn '/').foldl (cleanStep rooted) []).reverse

/-- Go `filepath.Clean` on Unix (no volume names): the shortest path name
equivalent to `path` by purely lexical processing.  The empty path and a
relative path that cleans to nothing become `.`; a rooted path keeps its
leading separator. -/
def Clean (path : String) : String :=
  if path.data = [] then "."
  else
    let rooted : Bool := path.data.head? = some '/'
    let elems := cleanElems rooted path.data
    if rooted then ⟨'/' :: ['/'].intercalate elems⟩
    else if elems = [] then "."
    else ⟨['/'].intercalate elems⟩

/-- Go `filepath.Join` with two elements: leading empty elements are ignored,
the rest are joined with the separator and the result is cleaned; if both
elements are empty the result is the empty string. -/
def Join (a b : String) : String :=
  if a.data ≠ [] then Clean (a ++ "/" ++ b)
  else if b.data ≠ [] then Clean b
  else ""

/-- The shape of the stack of kept elements (innermost first): every element
is a real name or `..`; a `..` occurs only in a relative path and only on top
of nothing or of another `..`. -/
def Kept (rooted : Bool) : List (List Char) → Prop
  | [] => True
  | top :: below =>
    top ≠ [] ∧ top ≠ ['.'] ∧ '/' ∉ top ∧
    (top = ['.', '.'] → rooted = false ∧ (below = [] ∨ below.head? = some ['.', '.'])) ∧
    Kept rooted below

end filepath

/-! ## Environment and external world -/

/-- The record `user.Current` returns (`*user.User`), reduced to the field the
program reads. -/
structure User where
  HomeDir : String
  deriving DecidableEq, Repr

/-- What the process reads from its environment. -/
structure Env where
  /-- Result of `user.Current()`: `none` when the lookup fails (`nil, err`). -/
  Current : Option User
  /-- Result of `os.Getwd()` (the empty string when it fails). -/
  Getwd : String

/-- A Go `error` value: `none` is `nil`. -/
abbrev Error := Option String

/-- The outcome `Run` reports for a process, given the argument vectors of the
processes started before it and its own argument vector.  A failed executable
lookup, a non-zero exit and a signal all count as an error. -/
abbrev World := List (List String) → List String → Error

/-- The fields of `exec.Cmd` the program touches. -/
structure Cmd where
  Path : String
  Args : List String
  Err : Error
  deriving DecidableEq, Repr

/-- Go `exec.Command`: the command to run `name` with the given arguments. -/
def exec.Command (name : String) (arg : List String) : Cmd :=
  ⟨name, name :: arg, none⟩

/-! ## Program state -/

/-- The package-level variables of `main.go`, together with the argument
vectors of the external processes started so far (oldest first). -/
structure State where
  rootDir : String
  dryRun : Bool
  runWall : List String
  spawned : List (List String)
  deriving DecidableEq, Repr

/-- The state at process start, after `main` has read the dry-run flag. -/
def State.init (dry : Bool) : State := ⟨"", dry, [], []⟩

/-- How a piece of the program ends: it returns a value, it stops the process
through `log.Fatalf` (message logged, exit status 1), or it panics. -/
inductive Result (α : Type) where
  | ok (a : α) (st : State)
  | fatal (msg : String) (st : State)
  | panic (st : State)
  deriving Repr

/-- The state reached, whichever way the run ended. -/
def Result.state {α : Type} : Result α → State
  | .ok _ st => st
  | .fatal _ st => st
  | .panic st => st

/-- A statement of the program: a state transformer that may stop the process. -/
def Prog (α : Type) : Type := State → Result α

instance : Monad Prog where
  pure a := fun st => .ok a st
  bind m f := fun st =>
    match m st with
    | .ok a st1 => f a st1
    | .fatal msg st1 => .fatal msg st1
    | .panic st1 => .panic st1

/-- Go `log.Fatalf` with a format of the shape `"<what> %+v\n"` and an error. -/
def logFatalf (what : String) (err : Error) : Prog Unit :=
  fun st => .fatal (what ++ " " ++ err.getD "<nil>" ++ "\n") st

/-- Lift a computation that may dereference a nil pointer. -/
def orPanic {α : Type} : Option α → Prog α
  | some a => pure a
  | none => fun st => .panic st

/-- Read the package-level `rootDir`. -/
def getRootDir : Prog String := fun st => .ok st.rootDir st

/-- Assign the package-level `rootDir`. -/
def setRootDir (d : String) : Prog Unit :=
  fun st => .ok () ⟨d, st.dryRun, st.runWall, st.spawned⟩

/-! ## The program -/

/-- `expand`: replace a leading `~/` by the current user's home directory.
`none` is the nil-pointer panic of `usr.HomeDir` when `user.Current` failed. -/
def expand (env : Env) (path : String) : Option String :=
  if strings.HasPrefix path "~/" then
    match env.Current with
    | some usr => some (filepath.Join usr.HomeDir ⟨path.data.drop 2⟩)
    | none => none
  else some path

/-- The dry-run record `fmt.Sprintf("$> %v %+v\n", name, arg)`; a string slice
prints as its elements separated by blanks, in square brackets. -/
def dryRecord (name : String) (arg : List String) : String :=
  "$> " ++ name ++ " [" ++ " ".intercalate arg ++ "]\n"

/-- `cmd`: in dry-run mode log the call and return the zero command
`&exec.Cmd{Err: nil}`; otherwise return `exec.Command(name, arg...)`. -/
def cmd (name : String) (arg : List String) : Prog Cmd := fun st =>
  if st.dryRun then
    .ok ⟨"", [], none⟩ ⟨st.rootDir, st.dryRun, st.runWall ++ [dryRecord name arg], st.spawned⟩
  else
    .ok (exec.Command name arg) st

/-- Go `(*exec.Cmd).Run`, which is `Start` followed by `Wait`.  `Start` begins
with `if c.Path == "" && c.Err == nil { c.Err = errors.New("exec: no command") }`
and `if c.Err != nil { return c.Err }`: a command without a path and a command
carrying a construction error are refused without starting a process.
Otherwise the process is started and waited for, and the world decides its
outcome. -/
def Cmd.Run (w : World) (c : Cmd) : Prog Error := fun st =>
  if c.Path.data = [] ∧ c.Err = none then .ok (some "exec: no command") st
  else
    match c.Err with
    | some e => .ok (some e) st
    | none => .ok (w st.spawned c.Args) ⟨st.rootDir, st.dryRun, st.runWall, st.spawned ++ [c.Args]⟩

/-- `attach`: hand the terminal to `tmux attach`; its error is discarded. -/
def attach (w : World) (name : String) : Prog Unit := do
  let c ← cmd "tmux" ["attach", "-t", name]
  let _ ← c.Run w
  pure ()

/-- `injectCmds`: type a non-empty command into one pane. -/
def injectCmds (w : World) (session : String) (win pane : Nat) (cmdStr : String) :
    Prog Unit := do
  if cmdStr.data = [] then
    pure ()
  else
    let tmuxTarget := session ++ ":" ++ toString win ++ "." ++ toString pane
    let c ← cmd "tmux" ["send-keys", "-t", tmuxTarget, cmdStr, "C-m"]
    let err ← c.Run w
    if err ≠ none then logFatalf "Inject Cmds failed!" err

/-- The body of `splitWindow`'s loop, from the pane at 0-based position `i0`. -/
def splitWindow.loop (w : World) (env : Env) (session : String) (index : Nat) :
    Nat → List Pane → Prog Unit
  | _, [] => pure ()
  | i0, p :: rest => do
    let i := i0 + 1
    let side := if p.Hor then "-h" else "-v"
    if i > 1 then
      let root ← getRootDir
      let dir ← orPanic (expand env (filepath.Join root p.Path))
      let c ← cmd "tmux" ["split-window", side, "-t", session ++ ":" ++ toString index, "-c", dir]
      let err ← c.Run w
      if err ≠ none then logFatalf "Split window failed!" err
    injectCmds w session index i p.Cmd
    splitWindow.loop w env session index (i0 + 1) rest

/-- `splitWindow`: split off every pane after the first and type each pane's
command. -/
def splitWindow (w : World) (env : Env) (session : String) (index : Nat) (win : Window) :
    Prog Unit :=
  splitWindow.loop w env session index 0 win.Panes

/-- The body of `runSession`'s loop over the windows, from the window at
0-based position `k`. -/
def runSession.loop (w : World) (env : Env) (name : String) :
    Nat → List Window → Prog Unit
  | _, [] => pure ()
  | k, win :: rest => do
    let i := k + 1
    if k = 0 then
      let c ← cmd "tmux" ["rename-window", "-t", name ++ ":" ++ toString i, win.Name]
      let err ← c.Run w
      if err ≠ none then logFatalf "Failed to rename first window!" err
    else
      let root ← getRootDir
      let path0 ← orPanic (expand env (filepath.Join root win.Path))
      let path ←
        match win.Panes with
        | p0 :: _ => orPanic (expand env (filepath.Join root p0.Path))
        | [] => pure path0
      let c ← cmd "tmux" ["new-window", "-t", name ++ ":" ++ toString i, "-n", win.Name, "-c", path]
      let err ← c.Run w
      if err ≠ none then logFatalf "Window creation failed!" err
    if win.Panes.length > 0 then
      splitWindow w env name i win
    else
      injectCmds w name i 1 win.Cmd
    runSession.loop w env name (k + 1) rest

/-- `runSession`, from the decoded configuration: attach to a live session of
that name, or build the session window by window and attach to it. -/
def runSession (w : World) (env : Env) (sess : Session) : Prog Unit := do
  let name := sess.Name
  let c ← cmd "tmux" ["has-session", "-t", name]
  let err ← c.Run w
  if err = none then
    attach w name
  else
    let r ← orPanic (expand env sess.Root)
    setRootDir r
    if r.data = [] then
      setRootDir env.Getwd
    let root ← getRootDir
    let c ← cmd "tmux" ["new-session", "-d", "-s", name, "-c", root, "-n", "main"]
    let err ← c.Run w
    if err ≠ none then logFatalf "Session creation failed!" err
    runSession.loop w env name 0 sess.Windows
    let c ← cmd "tmux" ["select-window", "-t", name ++ ":1"]
    let err ← c.Run w
    if err ≠ none then logFatalf "Select window failed!" err
    attach w name

/-! ## Plans: the calls of the provisioning phase, as data

Every statement of the provisioning phase is "issue one `tmux` call and stop
the process if it fails", possibly after resolving a directory, which panics
when the user lookup failed.  The definitions below list those steps; the
theorems relate them to the program. -/

/-- The state after one more process has been started. -/
def State.push (st : State) (argv : List String) : State :=
  ⟨st.rootDir, st.dryRun, st.runWall, st.spawned ++ [argv]⟩

/-- The state after one more record has been appended to the dry-run log. -/
def State.log (st : State) (record : String) : State :=
  ⟨st.rootDir, st.dryRun, st.runWall ++ [record], st.spawned⟩

/-- The state after `rootDir` has been assigned. -/
def State.withRoot (st : State) (d : String) : State :=
  ⟨d, st.dryRun, st.runWall, st.spawned⟩

/-- Issue one `tmux` call and stop the process with `what` if it fails. -/
def must (w : World) (argv : List String) (what : String) : Prog Unit := do
  let c ← cmd "tmux" argv
  let err ← c.Run w
  if err ≠ none then logFatalf what err

/-- One planned step: a call (the arguments after `tmux`, and the diagnostic
logged if the call fails), or the panic of a failed directory resolution. -/
inductive Step where
  | call (args : List String) (what : String)
  | crash
  deriving DecidableEq, Repr

/-- Carry out the planned steps in order. -/
def runPlan (w : World) : List Step → Prog Unit
  | [] => pure ()
  | .call args what :: rest => do
    must w args what
    runPlan w rest
  | .crash :: _ => fun st => .panic st

/-- The argument vectors a plan lists, up to its first panic. -/
def calls : List Step → List (List String)
  | [] => []
  | .call args _ :: rest => ("tmux" :: args) :: calls rest
  | .crash :: _ => []

/-- The steps that need the directory `expand path`. -/
def withDir (env : Env) (path : String) (k : String → List Step) : List Step :=
  match expand env path with
  | some dir => k dir
  | none => [.crash]

/-- The steps of `injectCmds`. -/
def injectPlan (session : String) (win pane : Nat) (cmdStr : String) : List Step :=
  if cmdStr.data = [] then []
  else [.call ["send-keys", "-t", session ++ ":" ++ toString win ++ "." ++ toString pane,
          cmdStr, "C-m"] "Inject Cmds failed!"]

/-- The steps of `splitWindow`'s loop from the pane at 0-based position `i0`. -/
def splitPlan (env : Env) (root session : String) (index : Nat) : Nat → List Pane → List Step
  | _, [] => []
  | i0, p :: rest =>
    (if i0 + 1 > 1 then
      withDir env (filepath.Join root p.Path) fun dir =>
        [.call ["split-window", if p.Hor then "-h" else "-v", "-t",
          session ++ ":" ++ toString index, "-c", dir] "Split window failed!"]
     else []) ++
    injectPlan session index (i0 + 1) p.Cmd ++
    splitPlan env root session index (i0 + 1) rest

/-- The steps of `runSession`'s loop from the window at 0-based position `k`. -/
def windowPlan (env : Env) (root name : String) : Nat → List Window → List Step
  | _, [] => []
  | k, win :: rest =>
    (if k = 0 then
      [.call ["rename-window", "-t", name ++ ":" ++ toString (k + 1), win.Name]
        "Failed to rename first window!"]
     else
      withDir env (filepath.Join root win.Path) fun dir0 =>
        match win.Panes with
        | p0 :: _ =>
          withDir env (filepath.Join root p0.Path) fun dir =>
            [.call ["new-window", "-t", name ++ ":" ++ toString (k + 1), "-n", win.Name,
              "-c", dir] "Window creation failed!"]
        | [] =>
          [.call ["new-window", "-t", name ++ ":" ++ toString (k + 1), "-n", win.Name,
            "-c", dir0] "Window creation failed!"]) ++
    (if win.Panes.length > 0 then splitPlan env root name (k + 1) 0 win.Panes
     else injectPlan name (k + 1) 1 win.Cmd) ++
    windowPlan env root name (k + 1) rest

/-- The session root `runSession` stores in `rootDir`, from the expanded
declared root. -/
def rootOr (env : Env) (r : String) : String :=
  if r.data = [] then env.Getwd else r

/-- The steps of a fresh run between the existence check and the attach, for
the session root `root`. -/
def buildPlan (env : Env) (root : String) (sess : Session) : List Step :=
  .call ["new-session", "-d", "-s", sess.Name, "-c", root, "-n", "main"]
    "Session creation failed!" ::
  (windowPlan env root sess.Name 0 sess.Windows ++
    [.call ["select-window", "-t", sess.Name ++ ":1"] "Select window failed!"])

/-- `expand` for a resolved user whose home directory is `home`. -/
def expandWith (home path : String) : String :=
  if strings.HasPrefix path "~/" then filepath.Join home ⟨path.data.drop 2⟩ else path

/-- The argument vector of the existence check. -/
def hasSessionCall (name : String) : List String := ["tmux", "has-session", "-t", name]

/-- The argument vector of the attach call. -/
def attachCall (name : String) : List String := ["tmux", "attach", "-t", name]

/-- A world in which no session exists yet and `tmux` then does all it is
asked: the first process started fails, every later one succeeds. -/
def Fresh (w : World) (name : String) : Prop :=
  w [] (hasSessionCall name) ≠ none ∧ ∀ hist argv, hist ≠ [] → w hist argv = none

/-- The world in which the first process fails and every later one succeeds. -/
def freshWorld : World := fun hist _ => if hist = [] then some "exit status 1" else none

/-- The world in which every process succeeds. -/
def liveWorld : World := fun _ _ => none

/-- The number a list of decimal digit characters denotes, continuing from `acc`. -/
def decimalValue (acc : Nat) (ds : List Char) : Nat :=
  ds.foldl (fun a c => a * 10 + (c.toNat - 48)) acc

/-- Whether `argv` is a call of the `tmux` subcommand `sub`. -/
def isCall (sub : String) (argv : List String) : Bool :=
  decide (argv.take 2 = ["tmux", sub])

/-- The target a `tmux` call names after its `-t` flag, if it has one.  The flag
is the first option of every subcommand the program uses except `split-window`,
where it follows the side, and `new-session`, which has none. -/
def target? (argv : List String) : Option String :=
  if argv[1]? = some "split-window" then
    if argv[3]? = some "-t" then argv[4]? else none
  else if argv[2]? = some "-t" then argv[3]? else none

/-- The processes started by the end of a run. -/
def issued (r : Result Unit) : List (List String) := r.state.spawned

/-- The path fragment that decides where a window after the first is created:
the first pane's path if the window declares panes, else the window's own. -/
def launchPath (win : Window) : String :=
  match win.Panes with
  | p0 :: _ => p0.Path
  | [] => win.Path

/-- The calls that concern the pane at 0-based position `j` of the window with
index `i`: typing its command into pane `j + 1`, and splitting it off. -/
def PaneCall (name : String) (i j : Nat) (p : Pane) (argv : List String) : Prop :=
  argv = ["tmux", "send-keys", "-t", name ++ ":" ++ toString i ++ "." ++ toString (j + 1),
    p.Cmd, "C-m"] ∨
  ∃ dir, argv = ["tmux", "split-window", if p.Hor then "-h" else "-v", "-t",
    name ++ ":" ++ toString i, "-c", dir]

/-- The calls that concern the window at 0-based position `k`, all of which
address it with index `k + 1`: renaming it, creating it, typing its own command
into its pane 1, and the calls for its panes. -/
def WindowCall (name : String) (k : Nat) (win : Window) (argv : List String) : Prop :=
  argv = ["tmux", "rename-window", "-t", name ++ ":" ++ toString (k + 1), win.Name] ∨
  (∃ dir, argv = ["tmux", "new-window", "-t", name ++ ":" ++ toString (k + 1), "-n",
    win.Name, "-c", dir]) ∨
  argv = ["tmux", "send-keys", "-t", name ++ ":" ++ toString (k + 1) ++ "." ++ toString 1,
    win.Cmd, "C-m"] ∨
  ∃ j p, win.Panes[j]? = some p ∧ PaneCall name (k + 1) j p argv

/-- The calls a run may issue for a configuration: the session-level calls, and
for a declared window the calls that address it by its position plus one. -/
def Addressed (sess : Session) (argv : List String) : Prop :=
  argv = ["tmux", "has-session", "-t", sess.Name] ∨
  argv = ["tmux", "attach", "-t", sess.Name] ∨
  (∃ root, argv = ["tmux", "new-session", "-d", "-s", sess.Name, "-c", root, "-n", "main"]) ∨
  argv = ["tmux", "select-window", "-t", sess.Name ++ ":" ++ toString 1] ∨
  ∃ k win, sess.Windows[k]? = some win ∧ WindowCall sess.Name k win argv

/-- The three shapes of a target: the bare session name, `<name>:<i>` and
`<name>:<i>.<j>`, with indices counted from 1. -/
def GoodTarget (name t : String) : Prop :=
  t = name ∨
  (∃ i, 1 ≤ i ∧ t = name ++ ":" ++ toString i) ∨
  ∃ i j, 1 ≤ i ∧ 1 ≤ j ∧ t = name ++ ":" ++ toString i ++ "." ++ toString j

/-- The steps planned for the pane at 0-based position `j` of the window with
index `i`: typing its non-empty command into pane `j + 1` and, for a pane after
the first, splitting it off in its resolved directory. -/
def PaneStep (env : Env) (root name : String) (i j : Nat) (p : Pane) (s : Step) : Prop :=
  (p.Cmd.data ≠ [] ∧
    s = .call ["send-keys", "-t", name ++ ":" ++ toString i ++ "." ++ toString (j + 1),
      p.Cmd, "C-m"] "Inject Cmds failed!") ∨
  (j ≠ 0 ∧ ∃ dir, expand env (filepath.Join root p.Path) = some dir ∧
    s = .call ["split-window", if p.Hor then "-h" else "-v", "-t",
      name ++ ":" ++ toString i, "-c", dir] "Split window failed!")

/-- The steps planned for the window at 0-based position `k`: renaming the
first window, creating a later one in its resolved directory, typing the
non-empty command of a window without panes into its pane 1, and the steps of
its panes. -/
def WindowStep (env : Env) (root name : String) (k : Nat) (win : Window) (s : Step) : Prop :=
  (k = 0 ∧
    s = .call ["rename-window", "-t", name ++ ":" ++ toString (k + 1), win.Name]
      "Failed to rename first window!") ∨
  (k ≠ 0 ∧ ∃ dir, expand env (filepath.Join root (launchPath win)) = some dir ∧
    s = .call ["new-window", "-t", name ++ ":" ++ toString (k + 1), "-n", win.Name,
      "-c", dir] "Window creation failed!") ∨
  (win.Panes = [] ∧ win.Cmd.data ≠ [] ∧
    s = .call ["send-keys", "-t", name ++ ":" ++ toString (k + 1) ++ "." ++ toString 1,
      win.Cmd, "C-m"] "Inject Cmds failed!") ∨
  ∃ j p, win.Panes[j]? = some p ∧ PaneStep env root name (k + 1) j p s

/-- The steps a build plan may hold for the session root `root`. -/
def Planned (env : Env) (root : String) (sess : Session) (s : Step) : Prop :=
  s = .crash ∨
  s = .call ["new-session", "-d", "-s", sess.Name, "-c", root, "-n", "main"]
    "Session creation failed!" ∨
  s = .call ["select-window", "-t", sess.Name ++ ":1"] "Select window failed!" ∨
  ∃ k win, sess.Windows[k]? = some win ∧ WindowStep env root sess.Name k win s

/-- The diagnostic `log.Fatalf` is given for a failed call, by subcommand. -/
def diagnostic (argv : List String) : String :=
  if argv[1]? = some "new-session" then "Session creation failed!"
  else if argv[1]? = some "rename-window" then "Failed to rename first window!"
  else if argv[1]? = some "new-window" then "Window creation failed!"
  else if argv[1]? = some "split-window" then "Split window failed!"
  else if argv[1]? = some "send-keys" then "Inject Cmds failed!"
  else if argv[1]? = some "select-window" then "Select window failed!"
  else ""

/-- The argument vector of a planned call. -/
def Step.argv : Step → List String
  | .call args _ => "tmux" :: args
  | .crash => []

/-- The world in which the first process fails, the process started after `n`
others fails too, and every other process succeeds. -/
def failAt (n : Nat) : World :=
  fun hist _ => if hist = [] ∨ hist.length = n then some "exit status 1" else none

/-! ## Facts about the standard library model -/

namespace filepath

theorem splitOn_snoc (l : List Char) : (l ++ ['/']).splitOn '/' = l.splitOn '/' ++ [[]] := by
  induction l with
  | nil => rfl
  | cons x xs ih =>
    simp only [List.splitOn, List.cons_append, List.splitOnP_cons] at ih ⊢
    split
    · rw [ih]; rfl
    · rw [ih]
      cases h : List.splitOnP (fun x => x == '/') xs with
      | nil => exact absurd h (List.splitOnP_ne_nil _ _)
      | cons a as => rfl

theorem not_mem_of_mem_splitOn (l : List Char) :
    ∀ e ∈ l.splitOn '/', '/' ∉ e := by
  induction l with
  | nil => intro e he; simp [List.splitOn_nil] at he; simp [he]
  | cons x xs ih =>
    intro e he
    simp only [List.splitOn, List.splitOnP_cons] at ih he
    split at he
    · rcases List.mem_cons.1 he with h | h
      · simp [h]
      · exact ih e h
    · rename_i hx
      cases h : List.splitOnP (fun x => x == '/') xs with
      | nil => exact absurd h (List.splitOnP_ne_nil _ _)
      | cons a as =>
        rw [h] at he ih
        simp only [List.modifyHead, List.mem_cons] at he
        rcases he with h1 | h1
        · subst h1
          have ha := ih a (List.mem_cons_self _ _)
          simp only [List.mem_cons, not_or]
          refine ⟨?_, ha⟩
          intro hc; apply hx; simp [← hc]
        · exact ih e (List.mem_cons_of_mem _ h1)

theorem kept_cleanStep (rooted : Bool) (stk : List (List Char)) (e : List Char)
    (hs : Kept rooted stk) (he : '/' ∉ e) : Kept rooted (cleanStep rooted stk e) := by
  unfold cleanStep
  split
  · exact hs
  · rename_i h1
    push_neg at h1
    split
    · rename_i h2
      cases stk with
      | nil =>
        cases rooted
        · simp [Kept, h2]
        · simp [Kept]
      | cons top rest =>
        simp only []
        split
        · rename_i h3
          refine ⟨h1.1, h1.2, he, ?_, hs⟩
          intro _
          exact ⟨(hs.2.2.2.1 h3).1, Or.inr (by simp [h3])⟩
        · exact hs.2.2.2.2
    · rename_i h2
      exact ⟨h1.1, h1.2, he, fun h => absurd h h2, hs⟩

theorem kept_foldl (rooted : Bool) (es : List (List Char)) (stk : List (List Char))
    (hs : Kept rooted stk) (he : ∀ e ∈ es, '/' ∉ e) :
    Kept rooted (es.foldl (cleanStep rooted) stk) := by
  induction es generalizing stk with
  | nil => exact hs
  | cons e rest ih =>
    exact ih _ (kept_cleanStep rooted stk e hs (he e (List.mem_cons_self _ _)))
      (fun x hx => he x (List.mem_cons_of_mem _ hx))

theorem kept_mem (rooted : Bool) (stk : List (List Char)) (hs : Kept rooted stk) :
    ∀ e ∈ stk, e ≠ [] ∧ '/' ∉ e := by
  induction stk with
  | nil => simp
  | cons top below ih =>
    intro e he
    rcases List.mem_cons.1 he with h | h
    · subst h; exact ⟨hs.1, hs.2.2.1⟩
    · exact ih hs.2.2.2.2 e h

/-- Cleaning the kept elements again keeps them all. -/
theorem foldl_kept (rooted : Bool) (stk : List (List Char)) (hs : Kept rooted stk) :
    stk.reverse.foldl (cleanStep rooted) [] = stk := by
  induction stk with
  | nil => rfl
  | cons top below ih =>
    rw [List.reverse_cons, List.foldl_append, ih hs.2.2.2.2]
    simp only [List.foldl_cons, List.foldl_nil]
    obtain ⟨h1, h2, _, h4, _⟩ := hs
    unfold cleanStep
    simp only [h1, h2, or_self, if_false]
    split
    · rename_i h
      obtain ⟨hr, hb⟩ := h4 h
      cases below with
      | nil => simp [hr, h]
      | cons b bs =>
        rcases hb with hb | hb
        · simp at hb
        · simp at hb; simp [hb]
    · rfl

theorem kept_elems (rooted : Bool) (l : List Char) :
    Kept rooted ((l.splitOn '/').foldl (cleanStep rooted) []) :=
  kept_foldl rooted _ [] trivial (not_mem_of_mem_splitOn l)

theorem splitOn_elems (rooted : Bool) (l : List Char) (hne : cleanElems rooted l ≠ []) :
    (['/'].intercalate (cleanElems rooted l)).splitOn '/' = cleanElems rooted l := by
  refine List.splitOn_intercalate _ '/' ?_ hne
  intro e he
  unfold cleanElems at he
  exact (kept_mem rooted _ (kept_elems rooted l) e (List.mem_reverse.1 he)).2

theorem foldl_elems (rooted : Bool) (l : List Char) :
    (cleanElems rooted l).foldl (cleanStep rooted) [] =
      (l.splitOn '/').foldl (cleanStep rooted) [] :=
  foldl_kept rooted _ (kept_elems rooted l)

theorem head_intercalate (rooted : Bool) (l : List Char) (hne : cleanElems rooted l ≠ []) :
    ∃ c rest, ['/'].intercalate (cleanElems rooted l) = c :: rest ∧ c ≠ '/' := by
  have hm : ∀ e ∈ cleanElems rooted l, e ≠ [] ∧ '/' ∉ e := by
    intro e he
    unfold cleanElems at he
    exact kept_mem rooted _ (kept_elems rooted l) e (List.mem_reverse.1 he)
  cases hE : cleanElems rooted l with
  | nil => exact absurd hE hne
  | cons e0 es =>
    rw [hE] at hm
    obtain ⟨h0, h1⟩ := hm e0 (List.mem_cons_self _ _)
    cases e0 with
    | nil => exact absurd rfl h0
    | cons c cs =>
      refine ⟨c, cs ++ (List.intersperse ['/'] (cs :: es)).flatten.drop cs.length, ?_, ?_⟩
      · cases es with
        | nil => simp [List.intercalate]
        | cons e1 es1 => simp [List.intercalate]
      · intro hc
        apply h1
        simp [hc]

theorem Clean_dot : Clean "." = "." := by decide

/-- `Clean` is idempotent. -/
theorem Clean_idem (s : String) : Clean (Clean s) = Clean s := by
  by_cases hs : s.data = []
  · have : Clean s = "." := by simp [Clean, hs]
    rw [this, Clean_dot]
  · by_cases hr : s.data.head? = some '/'
    · have h1 : Clean s = ⟨'/' :: ['/'].intercalate (cleanElems true s.data)⟩ := by
        simp [Clean, hs, hr]
      rw [h1]
      have h2 : cleanElems true ('/' :: ['/'].intercalate (cleanElems true s.data)) =
          cleanElems true s.data := by
        by_cases hE : cleanElems true s.data = []
        · rw [hE]; decide
        · have := splitOn_elems true s.data hE
          simp only [List.splitOn] at this
          rw [cleanElems, List.splitOn, List.splitOnP_cons]
          simp only [beq_self_eq_true, if_true, List.foldl_cons, this]
          have h3 : cleanStep true [] [] = [] := by decide
          rw [h3, foldl_elems]
          rfl
      simp [Clean, h2]
    · by_cases hE : cleanElems false s.data = []
      · have : Clean s = "." := by simp [Clean, hs, hr, hE]
        rw [this, Clean_dot]
      · have h1 : Clean s = ⟨['/'].intercalate (cleanElems false s.data)⟩ := by
          simp [Clean, hs, hr, hE]
        rw [h1]
        obtain ⟨c, rest, hc, hne⟩ := head_intercalate false s.data hE
        have h2 : cleanElems false (['/'].intercalate (cleanElems false s.data)) =
            cleanElems false s.data := by
          rw [cleanElems, splitOn_elems false s.data hE, foldl_elems]
          rfl
        have h3 : ¬ (['/'].intercalate (cleanElems false s.data)) = [] := by simp [hc]
        have h4 : ¬ (['/'].intercalate (cleanElems false s.data)).head? = some '/' := by
          simp [hc, hne]
        simp only [Clean, h3, h4, if_false, decide_False, h2, hE]
        simp

/-- `Clean` never returns the empty string. -/
theorem Clean_ne_empty (s : String) : (Clean s).data ≠ [] := by
  unfold Clean
  by_cases hs : s.data = []
  · simp [hs]
  · by_cases hr : s.data.head? = some '/'
    · simp [hs, hr]
    · by_cases hE : cleanElems false s.data = []
      · simp [hs, hr, hE]
      · obtain ⟨c, rest, hc, _⟩ := head_intercalate false s.data hE
        simp [hs, hr, hE, hc]

/-- Cleaning a rooted path gives a rooted path. -/
theorem Clean_rooted (s : String) (h : s.data.head? = some '/') :
    ∃ rest, (Clean s).data = '/' :: rest := by
  have hs : s.data ≠ [] := by intro h0; simp [h0] at h
  exact ⟨['/'].intercalate (cleanElems true s.data), by simp [Clean, hs, h]⟩

/-- A trailing separator does not change the cleaned path. -/
theorem Clean_trailing (r : String) (h : r.data ≠ []) : Clean (r ++ "/" ++ "") = Clean r := by
  have hd : (r ++ "/" ++ "").data = r.data ++ ['/'] := by
    simp [String.data_append]
  have hh : (r.data ++ ['/']).head? = r.data.head? := by
    cases hr : r.data with
    | nil => exact absurd hr h
    | cons c cs => rfl
  have he : ∀ b, cleanElems b (r.data ++ ['/']) = cleanElems b r.data := by
    intro b
    simp only [cleanElems, splitOn_snoc, List.foldl_append, List.foldl_cons, List.foldl_nil]
    congr 1
  simp only [Clean, hd, hh, he]
  simp [h]

theorem Join_empty (r : String) (h : r.data ≠ []) : Join r "" = Clean r := by
  simp only [Join, h, ne_eq, not_false_eq_true, if_true]
  exact Clean_trailing r h

end filepath

theorem digitChar_value (k : Nat) (h : k < 10) : (Nat.digitChar k).toNat - 48 = k := by
  interval_cases k <;> rfl

theorem decimalValue_toDigitsCore (fuel n : Nat) (ds : List Char) (h : n < fuel) :
    decimalValue 0 (Nat.toDigitsCore 10 fuel n ds) = decimalValue n ds := by
  induction fuel generalizing n ds with
  | zero => omega
  | succ fuel ih =>
    unfold Nat.toDigitsCore
    simp only []
    have hd := digitChar_value (n % 10) (Nat.mod_lt _ (by decide))
    split
    · rename_i h0
      have : n % 10 = n := by omega
      simp only [decimalValue, List.foldl_cons, hd]
      rw [this]; simp
    · rename_i h0
      rw [ih (n / 10) _ (by omega)]
      simp only [decimalValue, List.foldl_cons, hd]
      congr 1
      omega

/-- Decimal rendering of a natural number is injective. -/
theorem toString_nat_inj (a b : Nat) (h : toString a = toString b) : a = b := by
  have h1 : Nat.toDigits 10 a = Nat.toDigits 10 b := by
    have : (toString a).data = (toString b).data := by rw [h]
    simpa [toString, Nat.repr, List.asString] using this
  have ha := decimalValue_toDigitsCore (a + 1) a [] (by omega)
  have hb := decimalValue_toDigitsCore (b + 1) b [] (by omega)
  unfold Nat.toDigits at h1
  rw [h1, hb] at ha
  simpa [decimalValue] using ha.symm

theorem string_append_left_cancel (p a b : String) (h : p ++ a = p ++ b) : a = b := by
  have : (p ++ a).data = (p ++ b).data := by rw [h]
  simp only [String.data_append, List.append_cancel_left_eq] at this
  exact String.ext this

/-! ## Basic facts about `Prog` -/

theorem Prog.bind_apply {α β : Type} (m : Prog α) (f : α → Prog β) (st : State) :
    (m >>= f) st =
      match m st with
      | .ok a st1 => f a st1
      | .fatal msg st1 => .fatal msg st1
      | .panic st1 => .panic st1 := rfl

theorem Prog.pure_apply {α : Type} (a : α) (st : State) :
    (pure a : Prog α) st = .ok a st := rfl

theorem pure_bind_apply {α β : Type} (a : α) (f : α → Prog β) (st : State) :
    ((pure a : Prog α) >>= f) st = f a st := rfl

theorem getRootDir_bind {β : Type} (f : String → Prog β) (st : State) :
    (getRootDir >>= f) st = f st.rootDir st := rfl

theorem setRootDir_bind {β : Type} (d : String) (f : Unit → Prog β) (st : State) :
    (setRootDir d >>= f) st = f () (st.withRoot d) := rfl

theorem orPanic_some_bind {α β : Type} (a : α) (f : α → Prog β) (st : State) :
    (orPanic (some a) >>= f) st = f a st := rfl

theorem orPanic_none_bind {α β : Type} (f : α → Prog β) (st : State) :
    (orPanic (none : Option α) >>= f) st = .panic st := rfl

theorem cmd_normal (name : String) (arg : List String) (st : State) (h : st.dryRun = false) :
    cmd name arg st = .ok (exec.Command name arg) st := by
  simp [cmd, h]

theorem cmd_dry (name : String) (arg : List String) (st : State) (h : st.dryRun = true) :
    cmd name arg st = .ok ⟨"", [], none⟩ (st.log (dryRecord name arg)) := by
  simp [cmd, h, State.log]

theorem must_normal (w : World) (argv : List String) (what : String) (st : State)
    (h : st.dryRun = false) :
    must w argv what st =
      match w st.spawned ("tmux" :: argv) with
      | none => .ok () (st.push ("tmux" :: argv))
      | some e => .fatal (what ++ " " ++ e ++ "\n") (st.push ("tmux" :: argv)) := by
  simp only [must, Prog.bind_apply, cmd_normal _ _ _ h, Cmd.Run, exec.Command]
  simp only [List.cons_ne_nil, false_and, if_false, reduceCtorEq]
  cases hw : w st.spawned ("tmux" :: argv) <;>
    simp [State.push, logFatalf, Prog.pure_apply]

theorem must_dry (w : World) (argv : List String) (what : String) (st : State)
    (h : st.dryRun = true) :
    must w argv what st =
      .fatal (what ++ " " ++ "exec: no command" ++ "\n") (st.log (dryRecord "tmux" argv)) := by
  simp [must, Prog.bind_apply, cmd_dry _ _ _ h, Cmd.Run, logFatalf]

theorem must_keeps (w : World) (argv : List String) (what : String) (st : State) :
    (must w argv what st).state.rootDir = st.rootDir ∧
      (must w argv what st).state.dryRun = st.dryRun := by
  cases h : st.dryRun
  · rw [must_normal w argv what st h]
    cases w st.spawned ("tmux" :: argv) <;> simp [Result.state, State.push, h]
  · rw [must_dry w argv what st h]
    simp [Result.state, State.log, h]

theorem runPlan_nil (w : World) (st : State) : runPlan w [] st = .ok () st := rfl

theorem runPlan_call (w : World) (args : List String) (what : String) (rest : List Step)
    (st : State) :
    runPlan w (.call args what :: rest) st =
      match must w args what st with
      | .ok _ st1 => runPlan w rest st1
      | .fatal msg st1 => .fatal msg st1
      | .panic st1 => .panic st1 := by
  rw [runPlan, Prog.bind_apply]
  cases must w args what st <;> rfl

theorem runPlan_crash (w : World) (rest : List Step) (st : State) :
    runPlan w (.crash :: rest) st = .panic st := rfl

theorem runPlan_keeps (w : World) (plan : List Step) (st : State) :
    (runPlan w plan st).state.rootDir = st.rootDir ∧
      (runPlan w plan st).state.dryRun = st.dryRun := by
  induction plan generalizing st with
  | nil => simp [runPlan_nil, Result.state]
  | cons c rest ih =>
    cases c with
    | crash => simp [runPlan_crash, Result.state]
    | call args what =>
      rw [runPlan_call]
      have hk := must_keeps w args what st
      cases hm : must w args what st with
      | ok a st1 =>
        rw [hm] at hk
        simp only [Result.state] at hk
        have := ih st1
        simp only [hk.1, hk.2] at this
        exact this
      | fatal msg st1 => rw [hm] at hk; exact hk
      | panic st1 => rw [hm] at hk; exact hk

theorem runPlan_append (w : World) (p q : List Step) (st : State) :
    runPlan w (p ++ q) st =
      match runPlan w p st with
      | .ok _ st1 => runPlan w q st1
      | .fatal msg st1 => .fatal msg st1
      | .panic st1 => .panic st1 := by
  induction p generalizing st with
  | nil => simp [runPlan_nil]
  | cons c rest ih =>
    cases c with
    | crash => simp [runPlan_crash]
    | call args what =>
      simp only [List.cons_append, runPlan_call]
      cases must w args what st with
      | ok a st1 => exact ih st1
      | fatal msg st1 => rfl
      | panic st1 => rfl

theorem runPlan_single (w : World) (args : List String) (what : String) (st : State) :
    runPlan w [.call args what] st = must w args what st := by
  rw [runPlan_call]
  cases must w args what st <;> rfl

theorem runPlan_append_bind {β : Type} (w : World) (p q : List Step) (k : Unit → Prog β)
    (st : State) :
    (runPlan w (p ++ q) >>= k) st = (runPlan w p >>= fun _ => runPlan w q >>= k) st := by
  simp only [Prog.bind_apply, runPlan_append]
  cases runPlan w p st <;> rfl

theorem runPlan_cons_bind {β : Type} (w : World) (c : Step) (rest : List Step)
    (k : Unit → Prog β) (st : State) :
    (runPlan w (c :: rest) >>= k) st = (runPlan w [c] >>= fun _ => runPlan w rest >>= k) st :=
  runPlan_append_bind w [c] rest k st

/-- A statement that follows a plan, then a continuation that only depends on
the variables a plan leaves alone. -/
theorem seq_then {β : Type} (w : World) (m1 : Prog Unit) (m2 : Unit → Prog β)
    (p : List Step) (K : Prog β) (st : State)
    (h1 : m1 st = runPlan w p st)
    (h2 : ∀ st1, st1.rootDir = st.rootDir → st1.dryRun = st.dryRun → m2 () st1 = K st1) :
    (m1 >>= m2) st = (runPlan w p >>= fun _ => K) st := by
  have hk := runPlan_keeps w p st
  simp only [Prog.bind_apply, ← h1] at hk ⊢
  cases hm : m1 st with
  | ok a st1 =>
    rw [hm] at hk
    simp only [Result.state] at hk ⊢
    exact h2 st1 hk.1 hk.2
  | fatal msg st1 => rfl
  | panic st1 => rfl

/-- Sequencing two statements that each follow a plan follows the joined plan,
when the second plan is fixed by the root directory the first leaves alone. -/
theorem seq_plan (w : World) (m1 : Prog Unit) (m2 : Unit → Prog Unit)
    (p q : List Step) (st : State)
    (h1 : m1 st = runPlan w p st)
    (h2 : ∀ st1, st1.rootDir = st.rootDir → st1.dryRun = st.dryRun →
      m2 () st1 = runPlan w q st1) :
    (m1 >>= m2) st = runPlan w (p ++ q) st := by
  rw [seq_then w m1 m2 p (runPlan w q) st h1 h2, runPlan_append, Prog.bind_apply]
  cases runPlan w p st <;> rfl

/-- The inlined "run it, stop on error, go on" shape is `must` followed by the
continuation. -/
theorem must_then {β : Type} (w : World) (argv : List String) (what : String)
    (k : Unit → Prog β) (st : State) :
    (cmd "tmux" argv >>= fun c => Cmd.Run w c >>= fun err =>
      if err ≠ none then (logFatalf what err >>= k) else (pure PUnit.unit >>= k)) st =
    (must w argv what >>= k) st := by
  simp only [must, Prog.bind_apply]
  cases hc : cmd "tmux" argv st with
  | ok c st1 =>
    simp only []
    cases hr : Cmd.Run w c st1 with
    | ok err st2 =>
      simp only []
      cases err with
      | none => simp [Prog.bind_apply, Prog.pure_apply]
      | some e => simp [Prog.bind_apply, logFatalf]
    | fatal msg st2 => rfl
    | panic st2 => rfl
  | fatal msg st1 => rfl
  | panic st1 => rfl

theorem expand_some (env : Env) (usr : User) (hu : env.Current = some usr) (path : String) :
    expand env path = some (expandWith usr.HomeDir path) := by
  unfold expand expandWith
  split <;> simp [hu]

theorem withDir_some (env : Env) (usr : User) (hu : env.Current = some usr) (path : String)
    (k : String → List Step) :
    withDir env path k = k (expandWith usr.HomeDir path) := by
  simp [withDir, expand_some env usr hu]

theorem injectCmds_plan (w : World) (session : String) (win pane : Nat) (cmdStr : String)
    (st : State) :
    injectCmds w session win pane cmdStr st =
      runPlan w (injectPlan session win pane cmdStr) st := by
  unfold injectCmds injectPlan
  by_cases h : cmdStr.data = []
  · simp [h, runPlan_nil, Prog.pure_apply]
  · simp only [h, if_false, runPlan_single]
    rfl

theorem splitLoop_plan (w : World) (env : Env)
    (session : String) (index : Nat) (i0 : Nat) (panes : List Pane) (st : State) :
    splitWindow.loop w env session index i0 panes st =
      runPlan w (splitPlan env st.rootDir session index i0 panes) st := by
  induction panes generalizing i0 st with
  | nil => rfl
  | cons p rest ih =>
    rw [splitWindow.loop, splitPlan]
    have tail : ∀ st1 : State, st1.rootDir = st.rootDir → st1.dryRun = st.dryRun →
        (injectCmds w session index (i0 + 1) p.Cmd >>= fun _ =>
          splitWindow.loop w env session index (i0 + 1) rest) st1 =
        runPlan w (injectPlan session index (i0 + 1) p.Cmd ++
          splitPlan env st.rootDir session index (i0 + 1) rest) st1 := by
      intro st1 hr _
      apply seq_plan
      · exact injectCmds_plan ..
      · intro st2 hr2 _
        rw [ih, hr2, hr]
    by_cases hi : i0 + 1 > 1
    · simp only [hi, if_true, getRootDir_bind, List.append_assoc, withDir]
      cases expand env (filepath.Join st.rootDir p.Path) with
      | none => rfl
      | some dir =>
        simp only []
        rw [orPanic_some_bind, must_then]
        apply seq_plan
        · rw [runPlan_single]
        · intro st1 hr hd
          exact tail st1 hr hd
    · simp only [hi, if_false, List.nil_append]
      exact tail st rfl rfl

theorem windowLoop_plan (w : World) (env : Env)
    (name : String) (k : Nat) (wins : List Window) (st : State) :
    runSession.loop w env name k wins st =
      runPlan w (windowPlan env st.rootDir name k wins) st := by
  induction wins generalizing k st with
  | nil => rfl
  | cons win rest ih =>
    rw [runSession.loop, windowPlan]
    have tail : ∀ st1 : State, st1.rootDir = st.rootDir → st1.dryRun = st.dryRun →
        (if win.Panes.length > 0 then
          (splitWindow w env name (k + 1) win >>= fun _ =>
            runSession.loop w env name (k + 1) rest)
         else
          (injectCmds w name (k + 1) 1 win.Cmd >>= fun _ =>
            runSession.loop w env name (k + 1) rest)) st1 =
        runPlan w ((if win.Panes.length > 0 then
            splitPlan env st.rootDir name (k + 1) 0 win.Panes
          else injectPlan name (k + 1) 1 win.Cmd) ++
          windowPlan env st.rootDir name (k + 1) rest) st1 := by
      intro st1 hr _
      by_cases hp : win.Panes.length > 0
      · simp only [hp, if_true]
        apply seq_plan
        · rw [splitWindow, splitLoop_plan w env, hr]
        · intro st2 hr2 _
          rw [ih, hr2, hr]
      · simp only [hp, if_false]
        apply seq_plan
        · exact injectCmds_plan ..
        · intro st2 hr2 _
          rw [ih, hr2, hr]
    by_cases hk : k = 0
    · simp only [hk, if_true, List.append_assoc]
      rw [must_then]
      apply seq_plan
      · rw [runPlan_single]
      · intro st1 hr hd
        have := tail st1 hr hd
        simp only [hk] at this
        exact this
    · simp only [hk, if_false, getRootDir_bind, List.append_assoc, withDir]
      cases expand env (filepath.Join st.rootDir win.Path) with
      | none => rfl
      | some dir0 =>
        simp only []
        rw [orPanic_some_bind]
        cases hP : win.Panes with
        | nil =>
          simp only [hP] at tail ⊢
          rw [pure_bind_apply, must_then]
          apply seq_plan
          · rw [runPlan_single]
          · intro st1 hr hd
            exact tail st1 hr hd
        | cons p0 ps =>
          simp only [hP] at tail ⊢
          cases expand env (filepath.Join st.rootDir p0.Path) with
          | none => rfl
          | some dir =>
            simp only []
            rw [orPanic_some_bind, must_then]
            apply seq_plan
            · rw [runPlan_single]
            · intro st1 hr hd
              exact tail st1 hr hd

theorem attach_normal (w : World) (name : String) (st : State) (h : st.dryRun = false) :
    attach w name st = .ok () (st.push (attachCall name)) := by
  simp only [attach, Prog.bind_apply, cmd_normal _ _ _ h, Cmd.Run, exec.Command]
  simp [State.push, attachCall, Prog.pure_apply]

theorem attach_dry (w : World) (name : String) (st : State) (h : st.dryRun = true) :
    attach w name st = .ok () (st.log (dryRecord "tmux" ["attach", "-t", name])) := by
  simp [attach, Prog.bind_apply, cmd_dry _ _ _ h, Cmd.Run, Prog.pure_apply]

/-- After a failed existence check the run resolves the session root, follows
the build plan and then attaches. -/
theorem build_plan (w : World) (env : Env) (sess : Session) (st : State) :
    (orPanic (expand env sess.Root) >>= fun r => setRootDir r >>= fun _ =>
      if r.data = [] then
        (setRootDir env.Getwd >>= fun _ => getRootDir >>= fun root =>
          cmd "tmux" ["new-session", "-d", "-s", sess.Name, "-c", root, "-n", "main"] >>= fun c =>
          Cmd.Run w c >>= fun err =>
          if err ≠ none then
            (logFatalf "Session creation failed!" err >>= fun _ =>
              runSession.loop w env sess.Name 0 sess.Windows >>= fun _ =>
              cmd "tmux" ["select-window", "-t", sess.Name ++ ":1"] >>= fun c =>
              Cmd.Run w c >>= fun err =>
              if err ≠ none then
                (logFatalf "Select window failed!" err >>= fun _ => attach w sess.Name)
              else (pure PUnit.unit >>= fun _ => attach w sess.Name))
          else
            (pure PUnit.unit >>= fun _ =>
              runSession.loop w env sess.Name 0 sess.Windows >>= fun _ =>
              cmd "tmux" ["select-window", "-t", sess.Name ++ ":1"] >>= fun c =>
              Cmd.Run w c >>= fun err =>
              if err ≠ none then
                (logFatalf "Select window failed!" err >>= fun _ => attach w sess.Name)
              else (pure PUnit.unit >>= fun _ => attach w sess.Name)))
      else
        (pure PUnit.unit >>= fun _ => getRootDir >>= fun root =>
          cmd "tmux" ["new-session", "-d", "-s", sess.Name, "-c", root, "-n", "main"] >>= fun c =>
          Cmd.Run w c >>= fun err =>
          if err ≠ none then
            (logFatalf "Session creation failed!" err >>= fun _ =>
              runSession.loop w env sess.Name 0 sess.Windows >>= fun _ =>
              cmd "tmux" ["select-window", "-t", sess.Name ++ ":1"] >>= fun c =>
              Cmd.Run w c >>= fun err =>
              if err ≠ none then
                (logFatalf "Select window failed!" err >>= fun _ => attach w sess.Name)
              else (pure PUnit.unit >>= fun _ => attach w sess.Name))
          else
            (pure PUnit.unit >>= fun _ =>
              runSession.loop w env sess.Name 0 sess.Windows >>= fun _ =>
              cmd "tmux" ["select-window", "-t", sess.Name ++ ":1"] >>= fun c =>
              Cmd.Run w c >>= fun err =>
              if err ≠ none then
                (logFatalf "Select window failed!" err >>= fun _ => attach w sess.Name)
              else (pure PUnit.unit >>= fun _ => attach w sess.Name)))) st =
    match expand env sess.Root with
    | none => .panic st
    | some r =>
      (runPlan w (buildPlan env (rootOr env r) sess) >>= fun _ => attach w sess.Name)
        (st.withRoot (rootOr env r)) := by
  have core : ∀ st0 : State,
      (cmd "tmux" ["new-session", "-d", "-s", sess.Name, "-c", st0.rootDir, "-n", "main"] >>=
        fun c => Cmd.Run w c >>= fun err =>
          if err ≠ none then
            (logFatalf "Session creation failed!" err >>= fun _ =>
              runSession.loop w env sess.Name 0 sess.Windows >>= fun _ =>
              cmd "tmux" ["select-window", "-t", sess.Name ++ ":1"] >>= fun c =>
              Cmd.Run w c >>= fun err =>
              if err ≠ none then
                (logFatalf "Select window failed!" err >>= fun _ => attach w sess.Name)
              else (pure PUnit.unit >>= fun _ => attach w sess.Name))
          else
            (pure PUnit.unit >>= fun _ =>
              runSession.loop w env sess.Name 0 sess.Windows >>= fun _ =>
              cmd "tmux" ["select-window", "-t", sess.Name ++ ":1"] >>= fun c =>
              Cmd.Run w c >>= fun err =>
              if err ≠ none then
                (logFatalf "Select window failed!" err >>= fun _ => attach w sess.Name)
              else (pure PUnit.unit >>= fun _ => attach w sess.Name))) st0 =
      (runPlan w (buildPlan env st0.rootDir sess) >>= fun _ => attach w sess.Name) st0 := by
    intro st0
    rw [must_then w _ _ (fun _ => runSession.loop w env sess.Name 0 sess.Windows >>= fun _ =>
      cmd "tmux" ["select-window", "-t", sess.Name ++ ":1"] >>= fun c =>
      Cmd.Run w c >>= fun err =>
      if err ≠ none then
        (logFatalf "Select window failed!" err >>= fun _ => attach w sess.Name)
      else (pure PUnit.unit >>= fun _ => attach w sess.Name))]
    unfold buildPlan
    rw [runPlan_cons_bind]
    apply seq_then
    · rw [runPlan_single]
    · intro st1 hr1 _
      rw [runPlan_append_bind]
      apply seq_then
      · rw [windowLoop_plan w env, hr1]
      · intro st2 _ _
        rw [must_then w _ _ (fun _ => attach w sess.Name)]
        apply seq_then
        · rw [runPlan_single]
        · intro st3 _ _
          rfl
  cases expand env sess.Root with
  | none => rfl
  | some r =>
    rw [orPanic_some_bind]
    unfold rootOr
    by_cases hr : r.data = []
    · simp only [hr, if_true]
      exact core (st.withRoot env.Getwd)
    · simp only [hr, if_false]
      exact core (st.withRoot r)

theorem runSession_normal (w : World) (env : Env) (sess : Session) (st : State)
    (h : st.dryRun = false) :
    runSession w env sess st =
      match w st.spawned (hasSessionCall sess.Name) with
      | none => .ok () ((st.push (hasSessionCall sess.Name)).push (attachCall sess.Name))
      | some _ =>
        match expand env sess.Root with
        | none => .panic (st.push (hasSessionCall sess.Name))
        | some r =>
          (runPlan w (buildPlan env (rootOr env r) sess) >>= fun _ => attach w sess.Name)
            ((st.push (hasSessionCall sess.Name)).withRoot (rootOr env r)) := by
  unfold runSession
  simp only []
  rw [Prog.bind_apply, cmd_normal _ _ _ h]
  simp only [Prog.bind_apply, Cmd.Run, exec.Command, List.cons_ne_nil, false_and, if_false,
    reduceCtorEq]
  cases hw : w st.spawned (hasSessionCall sess.Name) with
  | none =>
    simp only [hasSessionCall] at hw
    simp only [hw, if_true]
    exact attach_normal w sess.Name _ h
  | some e =>
    simp only [hasSessionCall] at hw
    simp only [hw, reduceCtorEq, if_false]
    exact build_plan w env sess _

theorem runSession_dry (w : World) (env : Env) (sess : Session) (st : State)
    (h : st.dryRun = true) :
    runSession w env sess st =
      match expand env sess.Root with
      | none => .panic (st.log (dryRecord "tmux" ["has-session", "-t", sess.Name]))
      | some r =>
        .fatal ("Session creation failed!" ++ " " ++ "exec: no command" ++ "\n")
          (((st.log (dryRecord "tmux" ["has-session", "-t", sess.Name])).withRoot
            (rootOr env r)).log
              (dryRecord "tmux" ["new-session", "-d", "-s", sess.Name, "-c", rootOr env r,
                "-n", "main"])) := by
  unfold runSession
  simp only []
  rw [Prog.bind_apply, cmd_dry _ _ _ h]
  simp only [Prog.bind_apply, Cmd.Run, and_self, if_true, reduceCtorEq, if_false]
  refine (build_plan w env sess _).trans ?_
  cases expand env sess.Root with
  | none => rfl
  | some r =>
    simp only []
    unfold buildPlan
    rw [Prog.bind_apply, runPlan_call, must_dry _ _ _ _ (by simpa [State.log, State.withRoot])]

theorem injectPlan_crashFree (session : String) (win pane : Nat) (cmdStr : String) :
    Step.crash ∉ injectPlan session win pane cmdStr := by
  unfold injectPlan
  split <;> simp

theorem splitPlan_crashFree (env : Env) (usr : User) (hu : env.Current = some usr)
    (root session : String) (index i0 : Nat) (panes : List Pane) :
    Step.crash ∉ splitPlan env root session index i0 panes := by
  induction panes generalizing i0 with
  | nil => simp [splitPlan]
  | cons p rest ih =>
    have := injectPlan_crashFree session index (i0 + 1) p.Cmd
    have := ih (i0 + 1)
    simp only [splitPlan, withDir_some env usr hu, List.mem_append, not_or]
    refine ⟨⟨?_, by assumption⟩, by assumption⟩
    split <;> simp

theorem windowPlan_crashFree (env : Env) (usr : User) (hu : env.Current = some usr)
    (root name : String) (k : Nat) (wins : List Window) :
    Step.crash ∉ windowPlan env root name k wins := by
  induction wins generalizing k with
  | nil => simp [windowPlan]
  | cons win rest ih =>
    have h1 := injectPlan_crashFree name (k + 1) 1 win.Cmd
    have h2 := splitPlan_crashFree env usr hu root name (k + 1) 0 win.Panes
    have h3 := ih (k + 1)
    simp only [windowPlan, withDir_some env usr hu, List.mem_append, not_or]
    refine ⟨⟨?_, ?_⟩, h3⟩
    · split
      · simp
      · cases win.Panes <;> simp
    · split <;> assumption

theorem buildPlan_crashFree (env : Env) (usr : User) (hu : env.Current = some usr)
    (root : String) (sess : Session) :
    Step.crash ∉ buildPlan env root sess := by
  have := windowPlan_crashFree env usr hu root sess.Name 0 sess.Windows
  simp [buildPlan, this]

/-- While every call succeeds, a plan without panics runs to its end and starts
exactly the planned processes. -/
theorem runPlan_success (w : World) (plan : List Step) (st : State) (hd : st.dryRun = false)
    (hw : ∀ extra argv, w (st.spawned ++ extra) argv = none) (hc : Step.crash ∉ plan) :
    runPlan w plan st =
      .ok () ⟨st.rootDir, false, st.runWall, st.spawned ++ calls plan⟩ := by
  induction plan generalizing st with
  | nil =>
    rw [runPlan_nil]
    cases st
    simp_all [calls]
  | cons c rest ih =>
    cases c with
    | crash => simp at hc
    | call args what =>
      have h0 := hw [] ("tmux" :: args)
      rw [List.append_nil] at h0
      rw [runPlan_call, must_normal w args what st hd, h0]
      simp only []
      rw [ih (st.push ("tmux" :: args)) hd ?_ (by simp at hc; exact hc)]
      · simp [State.push, calls]
      · intro extra argv
        have := hw (("tmux" :: args) :: extra) argv
        simpa [State.push] using this

/-- The whole of a fresh successful run: it returns, `rootDir` holds the session
root, and the processes started are the existence check, the planned calls and
the attach, in this order. -/
theorem runSession_fresh (w : World) (env : Env) (usr : User) (hu : env.Current = some usr)
    (sess : Session) (hw : Fresh w sess.Name) :
    runSession w env sess (State.init false) =
      .ok () ⟨rootOr env (expandWith usr.HomeDir sess.Root), false, [],
        hasSessionCall sess.Name ::
          (calls (buildPlan env (rootOr env (expandWith usr.HomeDir sess.Root)) sess) ++
            [attachCall sess.Name])⟩ := by
  rw [runSession_normal w env sess _ rfl, expand_some env usr hu]
  obtain ⟨h1, h2⟩ := hw
  cases hh : w (State.init false).spawned (hasSessionCall sess.Name) with
  | none => exact absurd hh h1
  | some e =>
    simp only [Prog.bind_apply]
    rw [runPlan_success w _ _ rfl ?_ (buildPlan_crashFree env usr hu _ sess)]
    · simp only []
      rw [attach_normal _ _ _ rfl]
      simp [State.push, State.withRoot, State.init]
    · intro extra argv
      exact h2 _ _ (by simp [State.push, State.withRoot, State.init])

theorem calls_append (p q : List Step) (hc : Step.crash ∉ p) :
    calls (p ++ q) = calls p ++ calls q := by
  induction p with
  | nil => rfl
  | cons c rest ih =>
    cases c with
    | crash => simp at hc
    | call args what =>
      simp only [List.mem_cons, not_or] at hc
      simp [calls, ih hc.2]

theorem calls_injectPlan (session : String) (win pane : Nat) (cmdStr : String) :
    calls (injectPlan session win pane cmdStr) =
      if cmdStr.data = [] then []
      else [["tmux", "send-keys", "-t",
        session ++ ":" ++ toString win ++ "." ++ toString pane, cmdStr, "C-m"]] := by
  unfold injectPlan
  split <;> rfl

theorem calls_splitPlan_nil (env : Env) (root session : String) (index i0 : Nat) :
    calls (splitPlan env root session index i0 []) = [] := rfl

theorem calls_splitPlan_cons (env : Env) (usr : User) (hu : env.Current = some usr)
    (root session : String) (index i0 : Nat) (p : Pane) (rest : List Pane) :
    calls (splitPlan env root session index i0 (p :: rest)) =
      (if i0 + 1 > 1 then
        [["tmux", "split-window", if p.Hor then "-h" else "-v", "-t",
          session ++ ":" ++ toString index, "-c",
          expandWith usr.HomeDir (filepath.Join root p.Path)]]
       else []) ++
      calls (injectPlan session index (i0 + 1) p.Cmd) ++
      calls (splitPlan env root session index (i0 + 1) rest) := by
  rw [splitPlan, calls_append, calls_append, withDir_some env usr hu]
  · congr 2
    split <;> rfl
  · simp only [withDir_some env usr hu]
    split <;> simp
  · have := injectPlan_crashFree session index (i0 + 1) p.Cmd
    simp only [withDir_some env usr hu, List.mem_append, not_or]
    refine ⟨?_, this⟩
    split <;> simp

theorem calls_windowPlan_nil (env : Env) (root name : String) (k : Nat) :
    calls (windowPlan env root name k []) = [] := rfl

theorem calls_windowPlan_cons (env : Env) (usr : User) (hu : env.Current = some usr)
    (root name : String) (k : Nat) (win : Window) (rest : List Window) :
    calls (windowPlan env root name k (win :: rest)) =
      (if k = 0 then
        [["tmux", "rename-window", "-t", name ++ ":" ++ toString (k + 1), win.Name]]
       else
        [["tmux", "new-window", "-t", name ++ ":" ++ toString (k + 1), "-n", win.Name, "-c",
          expandWith usr.HomeDir (filepath.Join root (launchPath win))]]) ++
      (if win.Panes.length > 0 then calls (splitPlan env root name (k + 1) 0 win.Panes)
       else calls (injectPlan name (k + 1) 1 win.Cmd)) ++
      calls (windowPlan env root name (k + 1) rest) := by
  have h1 := injectPlan_crashFree name (k + 1) 1 win.Cmd
  have h2 := splitPlan_crashFree env usr hu root name (k + 1) 0 win.Panes
  have h0 : Step.crash ∉ (if k = 0 then
        [Step.call ["rename-window", "-t", name ++ ":" ++ toString (k + 1), win.Name]
          "Failed to rename first window!"]
       else
        match win.Panes with
        | p0 :: _ =>
          [Step.call ["new-window", "-t", name ++ ":" ++ toString (k + 1), "-n", win.Name,
            "-c", expandWith usr.HomeDir (filepath.Join root p0.Path)] "Window creation failed!"]
        | [] =>
          [Step.call ["new-window", "-t", name ++ ":" ++ toString (k + 1), "-n", win.Name,
            "-c", expandWith usr.HomeDir (filepath.Join root win.Path)]
            "Window creation failed!"]) := by
    split
    · simp
    · cases win.Panes <;> simp
  simp only [windowPlan, withDir_some env usr hu]
  rw [calls_append, calls_append _ _ h0]
  · congr 2
    · split
      · rfl
      · unfold launchPath
        cases win.Panes <;> rfl
    · split <;> rfl
  · simp only [List.mem_append, not_or]
    refine ⟨h0, ?_⟩
    split <;> assumption

theorem calls_buildPlan (env : Env) (usr : User) (hu : env.Current = some usr)
    (root : String) (sess : Session) :
    calls (buildPlan env root sess) =
      ["tmux", "new-session", "-d", "-s", sess.Name, "-c", root, "-n", "main"] ::
        (calls (windowPlan env root sess.Name 0 sess.Windows) ++
          [["tmux", "select-window", "-t", sess.Name ++ ":1"]]) := by
  rw [buildPlan, calls, calls_append _ _ (windowPlan_crashFree env usr hu _ _ _ _)]
  rfl

theorem isCall_cons (sub s : String) (rest : List String) :
    isCall sub ("tmux" :: s :: rest) = decide (s = sub) := by
  simp [isCall]

theorem filter_injectPlan (sub session : String) (win pane : Nat) (cmdStr : String)
    (h : sub ≠ "send-keys") :
    (calls (injectPlan session win pane cmdStr)).filter (isCall sub) = [] := by
  rw [calls_injectPlan]
  split
  · rfl
  · simp [isCall_cons, Ne.symm h]

/-- The `split-window` calls of the split loop: one per pane, except the pane
at position 0. -/
theorem filter_splitPlan (env : Env) (usr : User) (hu : env.Current = some usr)
    (root session : String) (index i0 : Nat) (panes : List Pane) :
    (calls (splitPlan env root session index i0 panes)).filter (isCall "split-window") =
      (if i0 = 0 then panes.tail else panes).map fun p =>
        ["tmux", "split-window", if p.Hor then "-h" else "-v", "-t",
          session ++ ":" ++ toString index, "-c",
          expandWith usr.HomeDir (filepath.Join root p.Path)] := by
  induction panes generalizing i0 with
  | nil => simp [calls_splitPlan_nil]
  | cons p rest ih =>
    rw [calls_splitPlan_cons env usr hu, List.filter_append, List.filter_append,
      filter_injectPlan _ _ _ _ _ (by decide), ih (i0 + 1)]
    by_cases h0 : i0 = 0
    · simp [h0]
    · have : i0 + 1 > 1 := by omega
      simp [h0, this, isCall_cons]

theorem filter_splitPlan_other (sub : String) (env : Env) (usr : User)
    (hu : env.Current = some usr) (root session : String) (index i0 : Nat) (panes : List Pane)
    (h1 : sub ≠ "send-keys") (h2 : sub ≠ "split-window") :
    (calls (splitPlan env root session index i0 panes)).filter (isCall sub) = [] := by
  induction panes generalizing i0 with
  | nil => simp [calls_splitPlan_nil]
  | cons p rest ih =>
    rw [calls_splitPlan_cons env usr hu, List.filter_append, List.filter_append,
      filter_injectPlan _ _ _ _ _ h1, ih (i0 + 1)]
    split <;> simp [isCall_cons, Ne.symm h2]

theorem filter_windowBody (sub : String) (env : Env) (usr : User)
    (hu : env.Current = some usr) (root name : String) (i : Nat) (win : Window)
    (h1 : sub ≠ "send-keys") (h2 : sub ≠ "split-window") :
    (if win.Panes.length > 0 then calls (splitPlan env root name i 0 win.Panes)
      else calls (injectPlan name i 1 win.Cmd)).filter (isCall sub) = [] := by
  split
  · exact filter_splitPlan_other sub env usr hu _ _ _ _ _ h1 h2
  · exact filter_injectPlan _ _ _ _ _ h1

/-- The `new-window` calls of the window loop from a position after the first:
one per window, in order. -/
theorem filter_windowPlan_new (env : Env) (usr : User) (hu : env.Current = some usr)
    (root name : String) (k : Nat) (hk : k ≠ 0) (wins : List Window) :
    (calls (windowPlan env root name k wins)).filter (isCall "new-window") =
      (wins.enumFrom k).map fun kw =>
        ["tmux", "new-window", "-t", name ++ ":" ++ toString (kw.1 + 1), "-n", kw.2.Name, "-c",
          expandWith usr.HomeDir (filepath.Join root (launchPath kw.2))] := by
  induction wins generalizing k with
  | nil => simp [calls_windowPlan_nil]
  | cons win rest ih =>
    rw [calls_windowPlan_cons env usr hu, List.filter_append, List.filter_append,
      filter_windowBody _ env usr hu _ _ _ _ (by decide) (by decide), ih (k + 1) (by omega)]
    simp [hk, isCall_cons]

/-- The `new-window` calls of the whole window loop: one per window after the
first, in order. -/
theorem filter_windowPlan_new_zero (env : Env) (usr : User) (hu : env.Current = some usr)
    (root name : String) (wins : List Window) :
    (calls (windowPlan env root name 0 wins)).filter (isCall "new-window") =
      wins.enum.tail.map fun kw =>
        ["tmux", "new-window", "-t", name ++ ":" ++ toString (kw.1 + 1), "-n", kw.2.Name, "-c",
          expandWith usr.HomeDir (filepath.Join root (launchPath kw.2))] := by
  cases wins with
  | nil => simp [calls_windowPlan_nil]
  | cons win rest =>
    rw [calls_windowPlan_cons env usr hu, List.filter_append, List.filter_append,
      filter_windowBody _ env usr hu _ _ _ _ (by decide) (by decide),
      filter_windowPlan_new env usr hu _ _ _ (by omega)]
    simp [isCall_cons, List.enum_cons]

theorem filter_windowPlan_rename (env : Env) (usr : User) (hu : env.Current = some usr)
    (root name : String) (k : Nat) (hk : k ≠ 0) (wins : List Window) :
    (calls (windowPlan env root name k wins)).filter (isCall "rename-window") = [] := by
  induction wins generalizing k with
  | nil => simp [calls_windowPlan_nil]
  | cons win rest ih =>
    rw [calls_windowPlan_cons env usr hu, List.filter_append, List.filter_append,
      filter_windowBody _ env usr hu _ _ _ _ (by decide) (by decide), ih (k + 1) (by omega)]
    simp [hk, isCall_cons]

theorem target_new_window (t n dir : String) :
    target? ["tmux", "new-window", "-t", t, "-n", n, "-c", dir] = some t := by
  simp [target?]

theorem colon_index_inj (name : String) (a b : Nat)
    (h : name ++ ":" ++ toString a = name ++ ":" ++ toString b) : a = b :=
  toString_nat_inj a b (string_append_left_cancel (name ++ ":") _ _ h)

theorem colon_one (name : String) : name ++ ":1" = name ++ ":" ++ toString 1 := by
  have : toString 1 = "1" := by decide
  rw [this, String.append_assoc]
  rfl

/-- The `new-window` calls among the processes of a fresh successful run. -/
theorem fresh_new_windows (w : World) (env : Env) (usr : User) (hu : env.Current = some usr)
    (sess : Session) (hw : Fresh w sess.Name) :
    (issued (runSession w env sess (State.init false))).filter (isCall "new-window") =
      sess.Windows.enum.tail.map fun kw =>
        ["tmux", "new-window", "-t", sess.Name ++ ":" ++ toString (kw.1 + 1), "-n", kw.2.Name,
          "-c", expandWith usr.HomeDir (filepath.Join
            (rootOr env (expandWith usr.HomeDir sess.Root)) (launchPath kw.2))] := by
  rw [runSession_fresh w env usr hu sess hw]
  simp only [issued, Result.state, calls_buildPlan env usr hu, hasSessionCall, attachCall,
    List.filter_cons, List.filter_append, filter_windowPlan_new_zero env usr hu, isCall_cons]
  simp

/-- With every call succeeding, `splitWindow` returns having started exactly
the calls of its plan. -/
theorem splitWindow_success (w : World) (env : Env) (usr : User) (hu : env.Current = some usr)
    (session : String) (index : Nat) (win : Window) (st : State) (hd : st.dryRun = false)
    (hw : ∀ hist argv, w hist argv = none) :
    splitWindow w env session index win st =
      .ok () ⟨st.rootDir, false, st.runWall,
        st.spawned ++ calls (splitPlan env st.rootDir session index 0 win.Panes)⟩ := by
  rw [splitWindow, splitLoop_plan,
    runPlan_success w _ st hd (fun _ _ => hw _ _) (splitPlan_crashFree env usr hu _ _ _ _ _)]

theorem expandWith_rooted (home path : String) (rest : List Char)
    (h : path.data = '/' :: rest) : expandWith home path = path := by
  simp [expandWith, strings.HasPrefix, h]

/-- An absolute, lexically clean session root is what `Join` and `expand` give
back for an empty path fragment. -/
theorem resolve_empty (home root : String) (rest : List Char) (h : root.data = '/' :: rest)
    (hc : filepath.Clean root = root) :
    expandWith home (filepath.Join root "") = root := by
  rw [filepath.Join_empty root (by simp [h]), hc]
  exact expandWith_rooted home root rest h

/-- The home-relative path `~/x` under an absolute home directory resolves to
an absolute, lexically clean path. -/
theorem join_home (home x : String) (habs : strings.HasPrefix home "/" = true) :
    (∃ rest, (filepath.Join home x).data = '/' :: rest) ∧
      filepath.Clean (filepath.Join home x) = filepath.Join home x := by
  have hne : home.data ≠ [] := by
    intro h0
    simp [strings.HasPrefix, h0] at habs
  have hj : filepath.Join home x = filepath.Clean (home ++ "/" ++ x) := by
    simp [filepath.Join, hne]
  rw [hj, filepath.Clean_idem]
  refine ⟨filepath.Clean_rooted _ ?_, rfl⟩
  cases hd : home.data with
  | nil => exact absurd hd hne
  | cons c cs =>
    simp only [strings.HasPrefix, hd] at habs
    have : c = '/' := by
      have := habs
      simp [List.isPrefixOf] at this
      exact this.symm
    simp [String.data_append, hd, this]

/-! ## What any run may issue -/

theorem must_spawned (w : World) (argv : List String) (what : String) (st : State) :
    (must w argv what st).state.spawned = st.spawned ∨
      (must w argv what st).state.spawned = st.spawned ++ ["tmux" :: argv] := by
  cases h : st.dryRun
  · rw [must_normal w argv what st h]
    cases w st.spawned ("tmux" :: argv) <;> simp [Result.state, State.push]
  · rw [must_dry w argv what st h]
    simp [Result.state, State.log]

theorem runPlan_spawned_mem (w : World) (plan : List Step) (st : State) :
    ∀ argv ∈ (runPlan w plan st).state.spawned,
      argv ∈ st.spawned ∨ ∃ args what, argv = "tmux" :: args ∧ Step.call args what ∈ plan := by
  induction plan generalizing st with
  | nil => intro argv h; exact Or.inl h
  | cons c rest ih =>
    intro argv h
    cases c with
    | crash => exact Or.inl h
    | call args what =>
      rw [runPlan_call] at h
      have hm := must_spawned w args what st
      have hstep : ∀ a ∈ (must w args what st).state.spawned,
          a ∈ st.spawned ∨ a = "tmux" :: args := by
        intro a ha
        rcases hm with hm | hm
        · rw [hm] at ha; exact Or.inl ha
        · rw [hm] at ha
          rcases List.mem_append.1 ha with h1 | h1
          · exact Or.inl h1
          · exact Or.inr (by simpa using h1)
      have lift : ∀ a, (a ∈ st.spawned ∨ a = "tmux" :: args) →
          a ∈ st.spawned ∨ ∃ args1 what1, a = "tmux" :: args1 ∧
            Step.call args1 what1 ∈ Step.call args what :: rest := by
        intro a ha
        rcases ha with ha | ha
        · exact Or.inl ha
        · exact Or.inr ⟨args, what, ha, List.mem_cons_self _ _⟩
      cases hr : must w args what st with
      | ok u st1 =>
        rw [hr] at h hstep
        simp only [Result.state] at hstep
        rcases ih st1 argv h with h1 | ⟨a1, w1, e1, m1⟩
        · exact lift argv (hstep argv h1)
        · exact Or.inr ⟨a1, w1, e1, List.mem_cons_of_mem _ m1⟩
      | fatal msg st1 =>
        rw [hr] at h hstep
        exact lift argv (hstep argv h)
      | panic st1 =>
        rw [hr] at h hstep
        exact lift argv (hstep argv h)

/-- Whatever the world, the mode and the environment, every process a run
starts is the existence check, the attach, or a call of the build plan. -/
theorem runSession_spawned_mem (w : World) (env : Env) (sess : Session) (dry : Bool) :
    ∀ argv ∈ (runSession w env sess (State.init dry)).state.spawned,
      argv = hasSessionCall sess.Name ∨ argv = attachCall sess.Name ∨
      ∃ root args what, argv = "tmux" :: args ∧
        Step.call args what ∈ buildPlan env root sess := by
  intro argv h
  cases dry with
  | true =>
    rw [runSession_dry w env sess _ rfl] at h
    cases he : expand env sess.Root with
    | none => rw [he] at h; simp [Result.state, State.log, State.init] at h
    | some r => rw [he] at h; simp [Result.state, State.log, State.withRoot, State.init] at h
  | false =>
    rw [runSession_normal w env sess _ rfl] at h
    cases hw : w (State.init false).spawned (hasSessionCall sess.Name) with
    | none =>
      rw [hw] at h
      simp only [Result.state, State.push, State.init, List.nil_append, List.cons_append,
        List.mem_cons, List.mem_singleton, List.not_mem_nil, or_false] at h
      rcases h with h | h
      · exact Or.inl h
      · exact Or.inr (Or.inl h)
    | some e =>
      rw [hw] at h
      cases he : expand env sess.Root with
      | none =>
        rw [he] at h
        simp only [Result.state, State.push, State.init, List.nil_append,
          List.mem_singleton] at h
        exact Or.inl h
      | some r =>
        rw [he] at h
        simp only [Prog.bind_apply] at h
        have hk := runPlan_keeps w (buildPlan env (rootOr env r) sess)
          (((State.init false).push (hasSessionCall sess.Name)).withRoot (rootOr env r))
        have hm := runPlan_spawned_mem w (buildPlan env (rootOr env r) sess)
          (((State.init false).push (hasSessionCall sess.Name)).withRoot (rootOr env r))
        have base : ∀ a, (a ∈ (((State.init false).push (hasSessionCall sess.Name)).withRoot
            (rootOr env r)).spawned ∨ ∃ args what, a = "tmux" :: args ∧
              Step.call args what ∈ buildPlan env (rootOr env r) sess) →
            a = hasSessionCall sess.Name ∨ a = attachCall sess.Name ∨
              ∃ root args what, a = "tmux" :: args ∧
                Step.call args what ∈ buildPlan env root sess := by
          intro a ha
          rcases ha with ha | ⟨a1, w1, e1, m1⟩
          · simp only [State.push, State.withRoot, State.init, List.nil_append,
              List.mem_singleton] at ha
            exact Or.inl ha
          · exact Or.inr (Or.inr ⟨_, a1, w1, e1, m1⟩)
        cases hr : runPlan w (buildPlan env (rootOr env r) sess)
            (((State.init false).push (hasSessionCall sess.Name)).withRoot (rootOr env r)) with
        | ok u st1 =>
          rw [hr] at h hk hm
          simp only [Result.state] at hk hm
          simp only [] at h
          rw [attach_normal w sess.Name st1 (by rw [hk.2]; rfl)] at h
          simp only [Result.state, State.push, List.mem_append, List.mem_singleton] at h
          rcases h with h | h
          · exact base argv (hm argv h)
          · exact Or.inr (Or.inl h)
        | fatal msg st1 =>
          rw [hr] at h hm
          exact base argv (hm argv h)
        | panic st1 =>
          rw [hr] at h hm
          exact base argv (hm argv h)

theorem mem_withDir (env : Env) (path : String) (f : String → List Step) (s : Step)
    (h : s ∈ withDir env path f) : s = .crash ∨ ∃ dir, s ∈ f dir := by
  unfold withDir at h
  cases he : expand env path with
  | none => rw [he] at h; exact Or.inl (by simpa using h)
  | some dir => rw [he] at h; exact Or.inr ⟨dir, h⟩

theorem injectPlan_mem (name : String) (i pane : Nat) (cmdStr : String) (args : List String)
    (what : String) (h : Step.call args what ∈ injectPlan name i pane cmdStr) :
    "tmux" :: args = ["tmux", "send-keys", "-t",
      name ++ ":" ++ toString i ++ "." ++ toString pane, cmdStr, "C-m"] := by
  unfold injectPlan at h
  split at h
  · simp at h
  · simp only [List.mem_singleton, Step.call.injEq] at h
    rw [h.1]

theorem splitPlan_mem (env : Env) (root name : String) (i i0 : Nat) (panes : List Pane)
    (args : List String) (what : String)
    (h : Step.call args what ∈ splitPlan env root name i i0 panes) :
    ∃ j p, panes[j]? = some p ∧ PaneCall name i (i0 + j) p ("tmux" :: args) := by
  induction panes generalizing i0 with
  | nil => simp [splitPlan] at h
  | cons p rest ih =>
    simp only [splitPlan, List.mem_append] at h
    rcases h with (h | h) | h
    · refine ⟨0, p, by simp, Or.inr ?_⟩
      split at h
      · rcases mem_withDir _ _ _ _ h with h1 | ⟨dir, h1⟩
        · exact absurd h1 (by simp)
        · simp only [List.mem_singleton, Step.call.injEq] at h1
          exact ⟨dir, by rw [h1.1]⟩
      · simp at h
    · exact ⟨0, p, by simp, Or.inl (injectPlan_mem _ _ _ _ _ _ h)⟩
    · obtain ⟨j, q, hq, hc⟩ := ih (i0 + 1) h
      refine ⟨j + 1, q, by simpa using hq, ?_⟩
      have : i0 + (j + 1) = i0 + 1 + j := by omega
      rw [this]
      exact hc

theorem windowPlan_mem (env : Env) (root name : String) (k : Nat) (wins : List Window)
    (args : List String) (what : String)
    (h : Step.call args what ∈ windowPlan env root name k wins) :
    ∃ i win, wins[i]? = some win ∧ WindowCall name (k + i) win ("tmux" :: args) := by
  induction wins generalizing k with
  | nil => simp [windowPlan] at h
  | cons win rest ih =>
    simp only [windowPlan, List.mem_append] at h
    rcases h with (h | h) | h
    · refine ⟨0, win, by simp, ?_⟩
      split at h
      · simp only [List.mem_singleton, Step.call.injEq] at h
        exact Or.inl (by rw [h.1])
      · refine Or.inr (Or.inl ?_)
        rcases mem_withDir _ _ _ _ h with h1 | ⟨dir0, h1⟩
        · exact absurd h1 (by simp)
        · cases hP : win.Panes with
          | nil =>
            rw [hP] at h1
            simp only [List.mem_singleton, Step.call.injEq] at h1
            exact ⟨dir0, by rw [h1.1]⟩
          | cons p0 ps =>
            rw [hP] at h1
            rcases mem_withDir _ _ _ _ h1 with h2 | ⟨dir, h2⟩
            · exact absurd h2 (by simp)
            · simp only [List.mem_singleton, Step.call.injEq] at h2
              exact ⟨dir, by rw [h2.1]⟩
    · refine ⟨0, win, by simp, ?_⟩
      split at h
      · obtain ⟨j, p, hp, hc⟩ := splitPlan_mem _ _ _ _ _ _ _ _ h
        refine Or.inr (Or.inr (Or.inr ⟨j, p, hp, ?_⟩))
        simpa using hc
      · exact Or.inr (Or.inr (Or.inl (injectPlan_mem _ _ _ _ _ _ h)))
    · obtain ⟨i, q, hq, hc⟩ := ih (k + 1) h
      refine ⟨i + 1, q, by simpa using hq, ?_⟩
      have : k + (i + 1) = k + 1 + i := by omega
      rw [this]
      exact hc

theorem buildPlan_mem (env : Env) (root : String) (sess : Session) (args : List String)
    (what : String) (h : Step.call args what ∈ buildPlan env root sess) :
    Addressed sess ("tmux" :: args) := by
  simp only [buildPlan, List.mem_cons, List.mem_append, List.mem_singleton,
    Step.call.injEq, List.not_mem_nil, or_false] at h
  rcases h with h | h | h
  · exact Or.inr (Or.inr (Or.inl ⟨root, by rw [h.1]⟩))
  · obtain ⟨i, win, hw, hc⟩ := windowPlan_mem _ _ _ _ _ _ _ h
    refine Or.inr (Or.inr (Or.inr (Or.inr ⟨i, win, hw, ?_⟩)))
    simpa using hc
  · refine Or.inr (Or.inr (Or.inr (Or.inl ?_)))
    rw [h.1, colon_one]

/-- Every addressed call names a target of one of the three shapes, with indices
counted from 1. -/
theorem addressed_target (sess : Session) (argv : List String) (h : Addressed sess argv)
    (t : String) (ht : target? argv = some t) : GoodTarget sess.Name t := by
  rcases h with h | h | ⟨root, h⟩ | h | ⟨k, win, _, h | ⟨dir, h⟩ | h | ⟨j, p, _, h | ⟨dir, h⟩⟩⟩
  all_goals subst h
  all_goals simp only [target?, List.getElem?_cons_succ, List.getElem?_cons_zero,
    Option.some.injEq, reduceCtorEq, String.reduceEq, if_true, if_false] at ht
  · exact Or.inl ht.symm
  · exact Or.inl ht.symm
  · exact Or.inr (Or.inl ⟨1, le_refl _, ht.symm⟩)
  · exact Or.inr (Or.inl ⟨k + 1, by omega, ht.symm⟩)
  · exact Or.inr (Or.inl ⟨k + 1, by omega, ht.symm⟩)
  · exact Or.inr (Or.inr ⟨k + 1, 1, by omega, le_refl _, ht.symm⟩)
  · exact Or.inr (Or.inr ⟨k + 1, j + 1, by omega, by omega, ht.symm⟩)
  · exact Or.inr (Or.inl ⟨k + 1, by omega, ht.symm⟩)

/-! ## Properties of the specification -/

/-- C1: for the configuration `{name: dev, root: "~/proj", windows: [{name:
edit, cmd: "vim ."}, {name: run, cmd: "go run ."}]}` and an absolute home
directory, a normal-mode run in which the existence check fails and every later
call succeeds returns having started exactly the eight listed processes in this
order, with `H` the home directory joined with `proj`. -/
theorem scenario_two_windows (w : World) (home cwd : String)
    (habs : strings.HasPrefix home "/" = true) (hw : Fresh w "dev") :
    runSession w ⟨some ⟨home⟩, cwd⟩
        ⟨"dev", "~/proj", [⟨"edit", "", "vim .", []⟩, ⟨"run", "", "go run .", []⟩]⟩
        (State.init false) =
      .ok () ⟨filepath.Join home "proj", false, [],
        [["tmux", "has-session", "-t", "dev"],
         ["tmux", "new-session", "-d", "-s", "dev", "-c", filepath.Join home "proj",
           "-n", "main"],
         ["tmux", "rename-window", "-t", "dev:1", "edit"],
         ["tmux", "send-keys", "-t", "dev:1.1", "vim .", "C-m"],
         ["tmux", "new-window", "-t", "dev:2", "-n", "run", "-c", filepath.Join home "proj"],
         ["tmux", "send-keys", "-t", "dev:2.1", "go run .", "C-m"],
         ["tmux", "select-window", "-t", "dev:1"],
         ["tmux", "attach", "-t", "dev"]]⟩ := by
  rw [runSession_fresh w ⟨some ⟨home⟩, cwd⟩ ⟨home⟩ rfl _ hw]
  obtain ⟨⟨rest, hroot⟩, hclean⟩ := join_home home "proj" habs
  have hexp : expandWith home "~/proj" = filepath.Join home "proj" := by
    have h1 : strings.HasPrefix "~/proj" "~/" = true := by decide
    have h2 : (⟨"~/proj".data.drop 2⟩ : String) = "proj" := by decide
    simp only [expandWith, h1, if_true, h2]
  have hor : rootOr ⟨some ⟨home⟩, cwd⟩ (filepath.Join home "proj") =
      filepath.Join home "proj" := by
    simp [rootOr, hroot]
  have hdir := resolve_empty home (filepath.Join home "proj") rest hroot hclean
  simp only [hexp, hor, calls_buildPlan ⟨some ⟨home⟩, cwd⟩ ⟨home⟩ rfl,
    calls_windowPlan_cons ⟨some ⟨home⟩, cwd⟩ ⟨home⟩ rfl,
    calls_windowPlan_nil, calls_injectPlan, launchPath, hdir, hasSessionCall, attachCall]
  have t1 : toString (1 : Nat) = "1" := by decide
  have t2 : toString (2 : Nat) = "2" := by decide
  simp [t1, t2]

/-- Witness for C1: the home directory `/home/u` and the world in which only the
existence check fails. -/
theorem scenario_two_windows_witness :
    strings.HasPrefix "/home/u" "/" = true ∧ Fresh freshWorld "dev" ∧
    runSession freshWorld ⟨some ⟨"/home/u"⟩, "/work"⟩
        ⟨"dev", "~/proj", [⟨"edit", "", "vim .", []⟩, ⟨"run", "", "go run .", []⟩]⟩
        (State.init false) =
      .ok () ⟨filepath.Join "/home/u" "proj", false, [],
        [["tmux", "has-session", "-t", "dev"],
         ["tmux", "new-session", "-d", "-s", "dev", "-c", filepath.Join "/home/u" "proj",
           "-n", "main"],
         ["tmux", "rename-window", "-t", "dev:1", "edit"],
         ["tmux", "send-keys", "-t", "dev:1.1", "vim .", "C-m"],
         ["tmux", "new-window", "-t", "dev:2", "-n", "run", "-c",
           filepath.Join "/home/u" "proj"],
         ["tmux", "send-keys", "-t", "dev:2.1", "go run .", "C-m"],
         ["tmux", "select-window", "-t", "dev:1"],
         ["tmux", "attach", "-t", "dev"]]⟩ :=
  have hf : Fresh freshWorld "dev" :=
    ⟨by decide, fun hist _ h => by simp [freshWorld, h]⟩
  ⟨by decide, hf, scenario_two_windows freshWorld "/home/u" "/work" (by decide) hf⟩

/-- C2: for every configuration, whatever windows and panes it declares, when
the existence check succeeds in normal mode the run returns having started
exactly two processes, `tmux has-session -t name` and `tmux attach -t name`;
nothing is created, renamed, split, typed or selected, and nothing is logged. -/
theorem existing_session_only_attaches (w : World) (env : Env) (sess : Session)
    (hlive : w [] ["tmux", "has-session", "-t", sess.Name] = none) :
    runSession w env sess (State.init false) =
      .ok () ⟨"", false, [],
        [["tmux", "has-session", "-t", sess.Name], ["tmux", "attach", "-t", sess.Name]]⟩ := by
  unfold runSession
  simp only []
  rw [Prog.bind_apply, cmd_normal _ _ _ rfl]
  simp only [Prog.bind_apply, Cmd.Run, exec.Command, List.cons_ne_nil, false_and, if_false,
    reduceCtorEq, State.init, hlive, if_true]
  rw [attach_normal _ _ _ rfl]
  simp [State.push, attachCall]

/-- Witness for C2: a live session `dev` and a configuration declaring two
windows, one of them with two panes. -/
theorem existing_session_only_attaches_witness :
    liveWorld [] ["tmux", "has-session", "-t", "dev"] = none ∧
    runSession liveWorld ⟨none, "/work"⟩
        ⟨"dev", "~/proj",
          [⟨"edit", "", "vim .", []⟩,
           ⟨"run", "srv", "", [⟨"", "go run .", false⟩, ⟨"logs", "tail -f x", true⟩]⟩]⟩
        (State.init false) =
      .ok () ⟨"", false, [],
        [["tmux", "has-session", "-t", "dev"], ["tmux", "attach", "-t", "dev"]]⟩ :=
  ⟨rfl, existing_session_only_attaches liveWorld ⟨none, "/work"⟩
    ⟨"dev", "~/proj",
      [⟨"edit", "", "vim .", []⟩,
       ⟨"run", "srv", "", [⟨"", "go run .", false⟩, ⟨"logs", "tail -f x", true⟩]⟩]⟩ rfl⟩

/-- C4: in dry-run mode `cmd(program, args...)` appends exactly one record
naming the program and its arguments to the end of `runWall`, leaves the
earlier records and every other variable unchanged and starts no process; but
running the command it returns reports the error `exec: no command`, not
success, because the returned command has no path. -/
theorem dry_cmd_logs_then_run_fails (w : World) (name : String) (arg : List String)
    (rootDir : String) (runWall : List String) (spawned : List (List String)) :
    cmd name arg ⟨rootDir, true, runWall, spawned⟩ =
      .ok ⟨"", [], none⟩ ⟨rootDir, true, runWall ++ [dryRecord name arg], spawned⟩ ∧
    Cmd.Run w ⟨"", [], none⟩ ⟨rootDir, true, runWall ++ [dryRecord name arg], spawned⟩ =
      .ok (some "exec: no command")
        ⟨rootDir, true, runWall ++ [dryRecord name arg], spawned⟩ := by
  constructor
  · simp [cmd]
  · simp [Cmd.Run]

/-- C3: in dry-run mode, for every configuration and a resolvable user, the run
starts no process, logs the existence check and the session creation, and then
stops in `log.Fatalf` at the session creation: the log holds two records
whatever windows and panes are declared. -/
theorem dry_run_stops_at_new_session (w : World) (usr : User) (cwd : String) (sess : Session) :
    runSession w ⟨some usr, cwd⟩ sess (State.init true) =
      .fatal ("Session creation failed!" ++ " " ++ "exec: no command" ++ "\n")
        ⟨rootOr ⟨some usr, cwd⟩ (expandWith usr.HomeDir sess.Root), true,
          [dryRecord "tmux" ["has-session", "-t", sess.Name],
           dryRecord "tmux" ["new-session", "-d", "-s", sess.Name, "-c",
             rootOr ⟨some usr, cwd⟩ (expandWith usr.HomeDir sess.Root), "-n", "main"]], []⟩ := by
  rw [runSession_dry w _ sess _ rfl, expand_some ⟨some usr, cwd⟩ usr rfl]
  simp [State.log, State.withRoot, State.init]

/-- C5 as stated fails for a configuration that declares no window: a fresh
successful run then issues no `new-window` call, while `len(windows) - 1` is
`-1`. -/
theorem no_window_count_differs :
    ((issued (runSession freshWorld ⟨some ⟨"/home/u"⟩, "/work"⟩ ⟨"dev", "", []⟩
        (State.init false))).filter (isCall "new-window")).length = 0 ∧
    ((((issued (runSession freshWorld ⟨some ⟨"/home/u"⟩, "/work"⟩ ⟨"dev", "", []⟩
        (State.init false))).filter (isCall "new-window")).length : Int) ≠
      (((⟨"dev", "", []⟩ : Session).Windows.length : Int) - 1)) := by
  decide

/-- C5, amended: in a fresh successful run the number of `new-window` calls is
`len(windows) - 1` when the configuration declares at least one window, and 0
when it declares none. -/
theorem new_window_count (w : World) (env : Env) (usr : User) (hu : env.Current = some usr)
    (sess : Session) (hw : Fresh w sess.Name) :
    (sess.Windows ≠ [] →
      ((((issued (runSession w env sess (State.init false))).filter
        (isCall "new-window")).length : Nat) : Int) = (sess.Windows.length : Int) - 1) ∧
    (sess.Windows = [] →
      ((issued (runSession w env sess (State.init false))).filter
        (isCall "new-window")).length = 0) := by
  rw [fresh_new_windows w env usr hu sess hw]
  constructor
  · intro hne
    cases hW : sess.Windows with
    | nil => exact absurd hW hne
    | cons w0 rest => simp [List.enum_cons]
  · intro he
    simp [he]

/-- Witness for C5: three windows, two `new-window` calls. -/
theorem new_window_count_witness :
    (((⟨"dev", "/srv", [⟨"a", "", "", []⟩, ⟨"b", "x", "", []⟩, ⟨"c", "", "ls", []⟩]⟩ :
        Session).Windows ≠ [] →
      ((((issued (runSession freshWorld ⟨some ⟨"/home/u"⟩, "/work"⟩
          ⟨"dev", "/srv", [⟨"a", "", "", []⟩, ⟨"b", "x", "", []⟩, ⟨"c", "", "ls", []⟩]⟩
          (State.init false))).filter (isCall "new-window")).length : Nat) : Int) =
        ((⟨"dev", "/srv", [⟨"a", "", "", []⟩, ⟨"b", "x", "", []⟩, ⟨"c", "", "ls", []⟩]⟩ :
          Session).Windows.length : Int) - 1) ∧
     ((⟨"dev", "/srv", [⟨"a", "", "", []⟩, ⟨"b", "x", "", []⟩, ⟨"c", "", "ls", []⟩]⟩ :
        Session).Windows = [] →
      ((issued (runSession freshWorld ⟨some ⟨"/home/u"⟩, "/work"⟩
          ⟨"dev", "/srv", [⟨"a", "", "", []⟩, ⟨"b", "x", "", []⟩, ⟨"c", "", "ls", []⟩]⟩
          (State.init false))).filter (isCall "new-window")).length = 0)) :=
  new_window_count freshWorld ⟨some ⟨"/home/u"⟩, "/work"⟩ ⟨"/home/u"⟩ rfl
    ⟨"dev", "/srv", [⟨"a", "", "", []⟩, ⟨"b", "x", "", []⟩, ⟨"c", "", "ls", []⟩]⟩
    ⟨by decide, fun hist _ h => by simp [freshWorld, h]⟩

/-- With a resolved current user: for a window with a non-empty list of `N`
panes, when every call succeeds `splitWindow` returns and the calls it issued
contain exactly `N - 1` `split-window` calls. -/
theorem split_count (w : World) (env : Env) (usr : User) (hu : env.Current = some usr)
    (session : String) (index : Nat) (win : Window) (st : State) (hd : st.dryRun = false)
    (hw : ∀ hist argv, w hist argv = none) (hp : win.Panes ≠ []) :
    ∃ new, splitWindow w env session index win st =
        .ok () ⟨st.rootDir, false, st.runWall, st.spawned ++ new⟩ ∧
      ((new.filter (isCall "split-window")).length : Int) = (win.Panes.length : Int) - 1 := by
  refine ⟨_, splitWindow_success w env usr hu session index win st hd hw, ?_⟩
  rw [filter_splitPlan env usr hu]
  cases hP : win.Panes with
  | nil => exact absurd hP hp
  | cons p0 ps => simp

/-- An instance of `split_count`: a window with three panes, two `split-window`
calls. -/
theorem split_count_witness :
    ∃ new, splitWindow liveWorld ⟨some ⟨"/home/u"⟩, "/work"⟩ "dev" 2
        ⟨"run", "", "", [⟨"", "a", false⟩, ⟨"x", "", true⟩, ⟨"y", "b", false⟩]⟩
        ⟨"/srv", false, [], []⟩ =
        .ok () ⟨"/srv", false, [], [] ++ new⟩ ∧
      ((new.filter (isCall "split-window")).length : Int) =
        ((⟨"run", "", "", [⟨"", "a", false⟩, ⟨"x", "", true⟩, ⟨"y", "b", false⟩]⟩ :
          Window).Panes.length : Int) - 1 :=
  split_count liveWorld ⟨some ⟨"/home/u"⟩, "/work"⟩ ⟨"/home/u"⟩ rfl "dev" 2
    ⟨"run", "", "", [⟨"", "a", false⟩, ⟨"x", "", true⟩, ⟨"y", "b", false⟩]⟩
    ⟨"/srv", false, [], []⟩ rfl (fun _ _ => rfl) (by decide)

/-- C6 fails when `user.Current` fails: with `rootDir` equal to `.`, every call
succeeding and the two panes `{cmd: a}` and `{path: ~/x, cmd: b, horizontal}`,
`splitWindow` types `a` into pane 1 and then panics in `expand`, whose argument
`Join(".", "~/x")` is `~/x`; it has issued no `split-window` call, where
`N - 1` is 1.  The state is the one a run of the configuration with root `.`
reaches: that run ends in the same panic after four processes. -/
theorem split_count_nil_user :
    filepath.Join "." "~/x" = "~/x" ∧
    expand ⟨none, "/work"⟩ "~/x" = none ∧
    splitWindow liveWorld ⟨none, "/work"⟩ "dev" 1
        ⟨"edit", "", "", [⟨"", "a", false⟩, ⟨"~/x", "b", true⟩]⟩ ⟨".", false, [], []⟩ =
      .panic ⟨".", false, [], [["tmux", "send-keys", "-t", "dev:1.1", "a", "C-m"]]⟩ ∧
    ((issued (splitWindow liveWorld ⟨none, "/work"⟩ "dev" 1
        ⟨"edit", "", "", [⟨"", "a", false⟩, ⟨"~/x", "b", true⟩]⟩
        ⟨".", false, [], []⟩)).filter (isCall "split-window")).length = 0 ∧
    ((⟨"edit", "", "", [⟨"", "a", false⟩, ⟨"~/x", "b", true⟩]⟩ : Window).Panes.length : Int) - 1
      = 1 ∧
    runSession freshWorld ⟨none, "/work"⟩
        ⟨"dev", ".", [⟨"edit", "", "", [⟨"", "a", false⟩, ⟨"~/x", "b", true⟩]⟩]⟩
        (State.init false) =
      .panic ⟨".", false, [],
        [["tmux", "has-session", "-t", "dev"],
         ["tmux", "new-session", "-d", "-s", "dev", "-c", ".", "-n", "main"],
         ["tmux", "rename-window", "-t", "dev:1", "edit"],
         ["tmux", "send-keys", "-t", "dev:1.1", "a", "C-m"]]⟩ :=
  ⟨by decide, by decide, rfl, by decide, by decide, rfl⟩

/-- With a resolved current user: when every call succeeds, `splitWindow`
returns and its `split-window` calls correspond one to one, in order, to the panes after the first: the call
for such a pane is `tmux split-window <side> -t <session>:<index> -c <dir>` with
`<side>` being `-h` for a horizontal pane and `-v` otherwise, the target naming
the window only, and `<dir>` the result of `expand(Join(rootDir, pane.path))`. -/
theorem split_calls (w : World) (env : Env) (usr : User) (hu : env.Current = some usr)
    (session : String) (index : Nat) (win : Window) (st : State) (hd : st.dryRun = false)
    (hw : ∀ hist argv, w hist argv = none) :
    ∃ new, splitWindow w env session index win st =
        .ok () ⟨st.rootDir, false, st.runWall, st.spawned ++ new⟩ ∧
      (new.filter (isCall "split-window")).map some =
        win.Panes.tail.map fun p =>
          (expand env (filepath.Join st.rootDir p.Path)).map fun dir =>
            ["tmux", "split-window", if p.Hor then "-h" else "-v", "-t",
              session ++ ":" ++ toString index, "-c", dir] := by
  refine ⟨_, splitWindow_success w env usr hu session index win st hd hw, ?_⟩
  rw [filter_splitPlan env usr hu]
  simp [expand_some env usr hu, Function.comp_def]

/-- An instance of `split_calls`: a window with two panes whose second pane is
horizontal yields exactly one split call, with `-h`, targeting the window,
rooted at the second pane's resolved path. -/
theorem split_calls_witness :
    ∃ new, splitWindow liveWorld ⟨some ⟨"/home/u"⟩, "/work"⟩ "dev" 2
        ⟨"run", "", "", [⟨"", "make", false⟩, ⟨"logs", "tail -f out", true⟩]⟩
        ⟨"/srv", false, [], []⟩ =
        .ok () ⟨"/srv", false, [], [] ++ new⟩ ∧
      new.filter (isCall "split-window") =
        [["tmux", "split-window", "-h", "-t", "dev:2", "-c", "/srv/logs"]] := by
  obtain ⟨new, h1, h2⟩ := split_calls liveWorld ⟨some ⟨"/home/u"⟩, "/work"⟩ ⟨"/home/u"⟩ rfl
    "dev" 2 ⟨"run", "", "", [⟨"", "make", false⟩, ⟨"logs", "tail -f out", true⟩]⟩
    ⟨"/srv", false, [], []⟩ rfl (fun _ _ => rfl)
  refine ⟨new, h1, ?_⟩
  have h3 : (new.filter (isCall "split-window")).map some =
      [some ["tmux", "split-window", "-h", "-t", "dev:2", "-c", "/srv/logs"]] := by
    rw [h2]
    decide
  cases hn : new.filter (isCall "split-window") with
  | nil => rw [hn] at h3; simp at h3
  | cons c cs =>
    rw [hn] at h3
    simp only [List.map_cons, List.cons.injEq, Option.some.injEq, List.map_eq_nil_iff] at h3
    rw [h3.1, h3.2]

/-- C8 fails when `user.Current` fails: for the window with the two panes
`{cmd: make}` and `{path: logs, cmd: tail -f out, horizontal}` under the session
root `~`, the second pane's directory `expand(Join("~", "logs"))` has no value,
because `Join` yields `~/logs` and `expand` dereferences the nil user.
`splitWindow` panics after typing `make` into pane 1 and issues no
`split-window` call at all, where the claim has exactly one, with `-h`.  The
run of the configuration with root `~` reaches that state and ends in the same
panic after six processes. -/
theorem split_call_missing_nil_user :
    filepath.Join "~" "logs" = "~/logs" ∧
    expand ⟨none, "/work"⟩ (filepath.Join "~" "logs") = none ∧
    splitWindow liveWorld ⟨none, "/work"⟩ "dev" 2
        ⟨"run", "", "", [⟨"", "make", false⟩, ⟨"logs", "tail -f out", true⟩]⟩
        ⟨"~", false, [], []⟩ =
      .panic ⟨"~", false, [], [["tmux", "send-keys", "-t", "dev:2.1", "make", "C-m"]]⟩ ∧
    (issued (splitWindow liveWorld ⟨none, "/work"⟩ "dev" 2
        ⟨"run", "", "", [⟨"", "make", false⟩, ⟨"logs", "tail -f out", true⟩]⟩
        ⟨"~", false, [], []⟩)).filter (isCall "split-window") = [] ∧
    runSession freshWorld ⟨none, "/work"⟩
        ⟨"dev", "~", [⟨"edit", "", "vim .", []⟩,
          ⟨"run", "", "", [⟨"", "make", false⟩, ⟨"logs", "tail -f out", true⟩]⟩]⟩
        (State.init false) =
      .panic ⟨"~", false, [],
        [["tmux", "has-session", "-t", "dev"],
         ["tmux", "new-session", "-d", "-s", "dev", "-c", "~", "-n", "main"],
         ["tmux", "rename-window", "-t", "dev:1", "edit"],
         ["tmux", "send-keys", "-t", "dev:1.1", "vim .", "C-m"],
         ["tmux", "new-window", "-t", "dev:2", "-n", "run", "-c", "~"],
         ["tmux", "send-keys", "-t", "dev:2.1", "make", "C-m"]]⟩ :=
  ⟨by decide, by decide, rfl, by decide, rfl⟩

/-- C7 as stated fails for a session root that is not lexically clean: with
the declared root `./~/x`, the directory `~/x` below the working directory,
`new-session` is given `-c ./~/x` and `rootDir` is `./~/x`, but the second
window, which declares neither path nor panes, is created with `-c /home/u/x`:
`Join` cleans the root to `~/x`, which `expand` then takes for a path below the
home directory.  That is another directory than the session root. -/
theorem unclean_root_differs :
    issued (runSession freshWorld ⟨some ⟨"/home/u"⟩, "/work"⟩
        ⟨"dev", "./~/x", [⟨"a", "", "", []⟩, ⟨"b", "", "", []⟩]⟩ (State.init false)) =
      [["tmux", "has-session", "-t", "dev"],
       ["tmux", "new-session", "-d", "-s", "dev", "-c", "./~/x", "-n", "main"],
       ["tmux", "rename-window", "-t", "dev:1", "a"],
       ["tmux", "new-window", "-t", "dev:2", "-n", "b", "-c", "/home/u/x"],
       ["tmux", "select-window", "-t", "dev:1"],
       ["tmux", "attach", "-t", "dev"]] ∧
    (runSession freshWorld ⟨some ⟨"/home/u"⟩, "/work"⟩
        ⟨"dev", "./~/x", [⟨"a", "", "", []⟩, ⟨"b", "", "", []⟩]⟩
        (State.init false)).state.rootDir = "./~/x" ∧
    launchPath ⟨"b", "", "", []⟩ = "" ∧
    filepath.Clean "./~/x" = "~/x" ∧
    "/home/u/x" ≠ "./~/x" := by
  decide

/-- C7, amended: in a fresh successful run the `new-window` calls correspond one
to one, in order, to the windows after the first; the call for the window at
0-based position `k` is `tmux new-window -t <name>:<k+1> -n <window name> -c
<path>` with `<path>` the result of `expand(Join(rootDir, p))`, `p` being the
first pane's path if the window declares panes and the window's path otherwise;
no two of these calls share a target.  When `p` is empty and `rootDir` is not,
`<path>` is `expand(Clean(rootDir))`, the expansion of the lexically cleaned
root, which is `rootDir` itself whenever `rootDir` is in lexically clean form
and does not begin with `~/`. -/
theorem new_window_calls (w : World) (env : Env) (usr : User) (hu : env.Current = some usr)
    (sess : Session) (hw : Fresh w sess.Name) :
    ((issued (runSession w env sess (State.init false))).filter (isCall "new-window")).map some =
      (sess.Windows.enum.tail.map fun kw =>
        (expand env (filepath.Join (runSession w env sess (State.init false)).state.rootDir
            (launchPath kw.2))).map fun dir =>
          ["tmux", "new-window", "-t", sess.Name ++ ":" ++ toString (kw.1 + 1), "-n",
            kw.2.Name, "-c", dir]) ∧
    (((issued (runSession w env sess (State.init false))).filter
      (isCall "new-window")).map target?).Nodup ∧
    (∀ root : String, root.data ≠ [] →
      expand env (filepath.Join root "") = expand env (filepath.Clean root)) ∧
    (∀ root : String, filepath.Clean root = root → strings.HasPrefix root "~/" = false →
      expand env (filepath.Join root "") = some root) := by
  refine ⟨?_, ?_, ?_, ?_⟩
  · rw [fresh_new_windows w env usr hu sess hw, runSession_fresh w env usr hu sess hw]
    simp [expand_some env usr hu, Function.comp_def, Result.state]
  · rw [fresh_new_windows w env usr hu sess hw]
    have hmap : (sess.Windows.enum.tail.map fun kw =>
        ["tmux", "new-window", "-t", sess.Name ++ ":" ++ toString (kw.1 + 1), "-n", kw.2.Name,
          "-c", expandWith usr.HomeDir (filepath.Join
            (rootOr env (expandWith usr.HomeDir sess.Root)) (launchPath kw.2))]).map target? =
        (sess.Windows.enum.tail.map Prod.fst).map fun k =>
          some (sess.Name ++ ":" ++ toString (k + 1)) := by
      rw [List.map_map, List.map_map]
      apply List.map_congr_left
      intro kw _
      simp only [Function.comp_apply, target_new_window]
    rw [hmap]
    apply List.Nodup.map
    · intro a b hab
      have := colon_index_inj sess.Name (a + 1) (b + 1) (Option.some.inj hab)
      omega
    · rw [List.tail_enum, List.enumFrom_map_fst]
      exact List.nodup_range' _ _
  · intro root hr
    rw [filepath.Join_empty root hr]
  · intro root hc hh
    have hne : root.data ≠ [] := by
      rw [← hc]
      exact filepath.Clean_ne_empty root
    rw [filepath.Join_empty root hne, hc]
    simp [expand, hh]

/-- Witness for C7: three windows, the second with a path and the third with
panes. -/
theorem new_window_calls_witness :
    Fresh freshWorld "dev" ∧
    (issued (runSession freshWorld ⟨some ⟨"/home/u"⟩, "/work"⟩
        ⟨"dev", "~/proj", [⟨"a", "", "", []⟩, ⟨"b", "api", "", []⟩,
          ⟨"c", "ignored", "", [⟨"web", "npm start", false⟩, ⟨"", "", true⟩]⟩]⟩
        (State.init false))).filter (isCall "new-window") =
      [["tmux", "new-window", "-t", "dev:2", "-n", "b", "-c", "/home/u/proj/api"],
       ["tmux", "new-window", "-t", "dev:3", "-n", "c", "-c", "/home/u/proj/web"]] := by
  have hf : Fresh freshWorld "dev" :=
    ⟨by decide, fun hist _ h => by simp [freshWorld, h]⟩
  have h := (new_window_calls freshWorld ⟨some ⟨"/home/u"⟩, "/work"⟩ ⟨"/home/u"⟩ rfl
    ⟨"dev", "~/proj", [⟨"a", "", "", []⟩, ⟨"b", "api", "", []⟩,
      ⟨"c", "ignored", "", [⟨"web", "npm start", false⟩, ⟨"", "", true⟩]⟩]⟩ hf).1
  refine ⟨hf, ?_⟩
  apply List.map_injective_iff.2 (Option.some_injective _)
  rw [h]
  decide

/-- C9: in a fresh successful run of a configuration with at least one window,
the first three processes are the existence check, `new-session` and `tmux
rename-window -t <name>:1 <windows[0].name>`; no later process is a
`rename-window` call; and no `new-window` call targets `<name>:1`. -/
theorem first_window_renamed (w : World) (env : Env) (usr : User) (hu : env.Current = some usr)
    (sess : Session) (hw : Fresh w sess.Name) (w0 : Window) (others : List Window)
    (hW : sess.Windows = w0 :: others) :
    (∃ later, issued (runSession w env sess (State.init false)) =
        ["tmux", "has-session", "-t", sess.Name] ::
        ["tmux", "new-session", "-d", "-s", sess.Name, "-c",
          (runSession w env sess (State.init false)).state.rootDir, "-n", "main"] ::
        ["tmux", "rename-window", "-t", sess.Name ++ ":1", w0.Name] :: later ∧
      later.filter (isCall "rename-window") = []) ∧
    (issued (runSession w env sess (State.init false))).filter (isCall "rename-window") =
      [["tmux", "rename-window", "-t", sess.Name ++ ":1", w0.Name]] ∧
    ∀ c ∈ issued (runSession w env sess (State.init false)),
      isCall "new-window" c = true → target? c ≠ some (sess.Name ++ ":1") := by
  have hshape : ∃ later, issued (runSession w env sess (State.init false)) =
        ["tmux", "has-session", "-t", sess.Name] ::
        ["tmux", "new-session", "-d", "-s", sess.Name, "-c",
          (runSession w env sess (State.init false)).state.rootDir, "-n", "main"] ::
        ["tmux", "rename-window", "-t", sess.Name ++ ":1", w0.Name] :: later ∧
      later.filter (isCall "rename-window") = [] := by
    rw [runSession_fresh w env usr hu sess hw]
    simp only [issued, Result.state, calls_buildPlan env usr hu, hW,
      calls_windowPlan_cons env usr hu, hasSessionCall, if_true]
    simp only [List.cons_append, List.nil_append, List.append_assoc, colon_one]
    refine ⟨_, rfl, ?_⟩
    simp only [List.filter_append, filter_windowBody _ env usr hu _ _ _ _
      (show "rename-window" ≠ "send-keys" by decide)
      (show "rename-window" ≠ "split-window" by decide),
      filter_windowPlan_rename env usr hu _ _ _ (show 0 + 1 ≠ 0 by omega), attachCall]
    simp [isCall]
  refine ⟨hshape, ?_, ?_⟩
  · obtain ⟨later, h1, h2⟩ := hshape
    rw [h1]
    simp [List.filter_cons, isCall_cons, h2]
  · intro c hc hn
    have hmem : c ∈ (issued (runSession w env sess (State.init false))).filter
        (isCall "new-window") := List.mem_filter.2 ⟨hc, hn⟩
    rw [fresh_new_windows w env usr hu sess hw] at hmem
    obtain ⟨kw, hkw, rfl⟩ := List.mem_map.1 hmem
    rw [target_new_window, colon_one]
    intro heq
    have h1 := colon_index_inj sess.Name _ _ (Option.some.inj heq)
    rw [List.tail_enum] at hkw
    have := List.le_fst_of_mem_enumFrom hkw
    omega

/-- Witness for C9: a configuration with two windows. -/
theorem first_window_renamed_witness :
    Fresh freshWorld "dev" ∧
    (∃ later, issued (runSession freshWorld ⟨some ⟨"/home/u"⟩, "/work"⟩
          ⟨"dev", "/srv", [⟨"edit", "", "vim .", []⟩, ⟨"run", "", "", []⟩]⟩
          (State.init false)) =
        ["tmux", "has-session", "-t", "dev"] ::
        ["tmux", "new-session", "-d", "-s", "dev", "-c",
          (runSession freshWorld ⟨some ⟨"/home/u"⟩, "/work"⟩
            ⟨"dev", "/srv", [⟨"edit", "", "vim .", []⟩, ⟨"run", "", "", []⟩]⟩
            (State.init false)).state.rootDir, "-n", "main"] ::
        ["tmux", "rename-window", "-t", "dev" ++ ":1", "edit"] :: later ∧
      later.filter (isCall "rename-window") = []) :=
  have hf : Fresh freshWorld "dev" :=
    ⟨by decide, fun hist _ h => by simp [freshWorld, h]⟩
  ⟨hf, (first_window_renamed freshWorld ⟨some ⟨"/home/u"⟩, "/work"⟩ ⟨"/home/u"⟩ rfl
    ⟨"dev", "/srv", [⟨"edit", "", "vim .", []⟩, ⟨"run", "", "", []⟩]⟩ hf
    ⟨"edit", "", "vim .", []⟩ [⟨"run", "", "", []⟩] rfl).1⟩

/-- C10: in every run, whatever the world, the environment and the mode, every
process started is a session-level call or a call for a declared window or pane
that addresses the window at 0-based position `k` with index `k + 1` and the
pane at 0-based position `j` with index `j + 1`; hence every `-t` target is the
bare session name, `<name>:<i>` with `i >= 1`, or `<name>:<i>.<j>` with
`i >= 1` and `j >= 1`. -/
theorem targets_one_based (w : World) (env : Env) (sess : Session) (dry : Bool) :
    ∀ argv ∈ issued (runSession w env sess (State.init dry)),
      Addressed sess argv ∧ ∀ t, target? argv = some t → GoodTarget sess.Name t := by
  intro argv h
  have ha : Addressed sess argv := by
    rcases runSession_spawned_mem w env sess dry argv h with h1 | h1 | ⟨root, args, what, e, m⟩
    · exact Or.inl h1
    · exact Or.inr (Or.inl h1)
    · rw [e]
      exact buildPlan_mem env root sess args what m
  exact ⟨ha, fun t ht => addressed_target sess argv ha t ht⟩

/-- Witness for C10: the command typed into the second pane of the second
window is addressed as `dev:2.2`. -/
theorem targets_one_based_witness :
    Addressed ⟨"dev", "/srv", [⟨"edit", "", "vim .", []⟩,
        ⟨"run", "", "", [⟨"", "make", false⟩, ⟨"logs", "tail -f out", true⟩]⟩]⟩
      ["tmux", "send-keys", "-t", "dev:2.2", "tail -f out", "C-m"] ∧
    ∀ t, target? ["tmux", "send-keys", "-t", "dev:2.2", "tail -f out", "C-m"] = some t →
      GoodTarget "dev" t :=
  targets_one_based freshWorld ⟨some ⟨"/home/u"⟩, "/work"⟩
    ⟨"dev", "/srv", [⟨"edit", "", "vim .", []⟩,
      ⟨"run", "", "", [⟨"", "make", false⟩, ⟨"logs", "tail -f out", true⟩]⟩]⟩ false
    ["tmux", "send-keys", "-t", "dev:2.2", "tail -f out", "C-m"] (by decide)

/-! ## Path expansion -/

theorem data_of_hasPrefix_slash (root : String) (h : strings.HasPrefix root "/" = true) :
    ∃ cs, root.data = '/' :: cs := by
  cases hd : root.data with
  | nil => simp [strings.HasPrefix, hd] at h
  | cons c cs =>
    simp only [strings.HasPrefix, hd] at h
    have hc : c = '/' := by
      have := h
      simp [List.isPrefixOf] at this
      exact this.symm
    exact ⟨cs, by rw [hc]⟩

theorem not_home_of_slash (s : String) (cs : List Char) (hd : s.data = '/' :: cs) :
    strings.HasPrefix s "~/" = false := by
  simp [strings.HasPrefix, hd, List.isPrefixOf]

theorem expand_of_not_home (env : Env) (path : String)
    (h : strings.HasPrefix path "~/" = false) : expand env path = some path := by
  simp [expand, h]

theorem hasPrefix_home_append (x : String) : strings.HasPrefix ("~/" ++ x) "~/" = true := by
  simp [strings.HasPrefix, String.data_append]

theorem drop_home_append (x : String) : (⟨("~/" ++ x).data.drop 2⟩ : String) = x := by
  apply String.ext
  simp [String.data_append]

/-- Joining against an absolute directory gives an absolute path. -/
theorem join_rooted (root p : String) (h : strings.HasPrefix root "/" = true) :
    ∃ rest, (filepath.Join root p).data = '/' :: rest := by
  obtain ⟨cs, hd⟩ := data_of_hasPrefix_slash root h
  have hne : root.data ≠ [] := by simp [hd]
  have hj : filepath.Join root p = filepath.Clean (root ++ "/" ++ p) := by
    simp [filepath.Join, hne]
  rw [hj]
  exact filepath.Clean_rooted _ (by simp [String.data_append, hd])

/-- C12: for every path that does not begin with the two characters `~/`,
`expand(path) = path`, whatever the user lookup gives; in particular for the
empty string, for `~` alone and for every absolute path. -/
theorem expand_identity (env : Env) (path : String)
    (h : strings.HasPrefix path "~/" = false) :
    expand env path = some path ∧
    expand env "" = some "" ∧
    expand env "~" = some "~" ∧
    ∀ abs : String, strings.HasPrefix abs "/" = true → expand env abs = some abs := by
  refine ⟨expand_of_not_home env path h, expand_of_not_home env "" (by decide),
    expand_of_not_home env "~" (by decide), ?_⟩
  intro abs ha
  obtain ⟨cs, hd⟩ := data_of_hasPrefix_slash abs ha
  exact expand_of_not_home env abs (not_home_of_slash abs cs hd)

/-- Witness for C12: a relative path that contains, but does not begin with,
the home marker. -/
theorem expand_identity_witness :
    strings.HasPrefix "src/~/x" "~/" = false ∧
    expand ⟨none, "/work"⟩ "src/~/x" = some "src/~/x" :=
  ⟨by decide, (expand_identity ⟨none, "/work"⟩ "src/~/x" (by decide)).1⟩

/-- C13: with `H` the home directory of the resolved current user, for every
string `x`, `expand("~/" ++ x)` is `filepath.Join(H, x)`; and whenever that
result does not itself begin with `~/`, a second application of `expand` leaves
it unchanged. -/
theorem expand_home (env : Env) (usr : User) (hu : env.Current = some usr) (x : String) :
    expand env ("~/" ++ x) = some (filepath.Join usr.HomeDir x) ∧
    (strings.HasPrefix (filepath.Join usr.HomeDir x) "~/" = false →
      (expand env ("~/" ++ x)).bind (expand env) = expand env ("~/" ++ x)) := by
  have h1 : expand env ("~/" ++ x) = some (filepath.Join usr.HomeDir x) := by
    simp only [expand, hasPrefix_home_append, if_true, hu, drop_home_append]
  refine ⟨h1, ?_⟩
  intro hn
  rw [h1, Option.some_bind, expand_of_not_home env _ hn]

/-- Witness for C13: `~/proj/../src` under the home directory `/home/u`. -/
theorem expand_home_witness :
    expand ⟨some ⟨"/home/u"⟩, "/work"⟩ ("~/" ++ "proj/../src") = some "/home/u/src" ∧
    (expand ⟨some ⟨"/home/u"⟩, "/work"⟩ ("~/" ++ "proj/../src")).bind
        (expand ⟨some ⟨"/home/u"⟩, "/work"⟩) =
      expand ⟨some ⟨"/home/u"⟩, "/work"⟩ ("~/" ++ "proj/../src") :=
  have h := expand_home ⟨some ⟨"/home/u"⟩, "/work"⟩ ⟨"/home/u"⟩ rfl "proj/../src"
  ⟨h.1.trans (by decide), h.2 (by decide)⟩

/-- C19: when the user lookup fails, `expand` applied to a path beginning with
`~/` does not return a path: reading `usr.HomeDir` dereferences the nil user and
panics; a fresh run whose declared root begins with `~/` panics right after the
existence check. -/
theorem expand_panics_without_user (cwd x : String) :
    expand ⟨none, cwd⟩ ("~/" ++ x) = none ∧
    runSession freshWorld ⟨none, "/work"⟩ ⟨"dev", "~/proj", [⟨"edit", "", "vim .", []⟩]⟩
        (State.init false) =
      .panic ⟨"", false, [], [["tmux", "has-session", "-t", "dev"]]⟩ := by
  constructor
  · simp only [expand, hasPrefix_home_append, if_true]
  · rw [runSession_normal _ _ _ _ rfl]
    have h1 : freshWorld (State.init false).spawned (hasSessionCall "dev") =
        some "exit status 1" := by decide
    have h2 : expand ⟨none, "/work"⟩ "~/proj" = none := by decide
    simp only [h1, h2]
    rfl

/-- C20: for every session root beginning with `/` and every path fragment `p`,
also one that begins with `~/`, `expand(filepath.Join(rootDir, p))` is
`filepath.Join(rootDir, p)` and begins with `/`, whatever the user lookup gives:
the second expansion never substitutes the home directory. -/
theorem second_expand_idle (env : Env) (rootDir p : String)
    (h : strings.HasPrefix rootDir "/" = true) :
    expand env (filepath.Join rootDir p) = some (filepath.Join rootDir p) ∧
    strings.HasPrefix (filepath.Join rootDir p) "/" = true := by
  obtain ⟨rest, hd⟩ := join_rooted rootDir p h
  exact ⟨expand_of_not_home env _ (not_home_of_slash _ rest hd),
    by simp [strings.HasPrefix, hd]⟩

/-- Witness for C20: the fragment `~/logs` under the root `/srv/app` stays under
the root. -/
theorem second_expand_idle_witness :
    strings.HasPrefix "/srv/app" "/" = true ∧
    expand ⟨some ⟨"/home/u"⟩, "/work"⟩ (filepath.Join "/srv/app" "~/logs") =
      some "/srv/app/~/logs" ∧
    strings.HasPrefix (filepath.Join "/srv/app" "~/logs") "/" = true :=
  have h := second_expand_idle ⟨some ⟨"/home/u"⟩, "/work"⟩ "/srv/app" "~/logs" (by decide)
  ⟨by decide, h.1.trans (by decide), h.2⟩

/-! ## Fields the translation never reads -/

/-- A run depends on the declared windows only through the build plan. -/
theorem runSession_congr (w : World) (env : Env) (name root : String)
    (wins1 wins2 : List Window) (dry : Bool)
    (h : ∀ r, buildPlan env r ⟨name, root, wins1⟩ = buildPlan env r ⟨name, root, wins2⟩) :
    runSession w env ⟨name, root, wins1⟩ (State.init dry) =
      runSession w env ⟨name, root, wins2⟩ (State.init dry) := by
  cases dry with
  | true => rw [runSession_dry _ _ _ _ rfl, runSession_dry _ _ _ _ rfl]
  | false =>
    rw [runSession_normal _ _ _ _ rfl, runSession_normal _ _ _ _ rfl]
    simp only [h]

theorem windowPlan_first_path (env : Env) (root name path : String) (w0 : Window)
    (rest : List Window) :
    windowPlan env root name 0 (⟨w0.Name, path, w0.Cmd, w0.Panes⟩ :: rest) =
      windowPlan env root name 0 (w0 :: rest) := by
  simp [windowPlan]

theorem windowPlan_paned (env : Env) (usr : User) (hu : env.Current = some usr)
    (root name : String) (k : Nat) (pre post : List Window) (win : Window)
    (hp : win.Panes ≠ []) (path cmd : String) :
    windowPlan env root name k (pre ++ ⟨win.Name, path, cmd, win.Panes⟩ :: post) =
      windowPlan env root name k (pre ++ win :: post) := by
  induction pre generalizing k with
  | nil =>
    cases hP : win.Panes with
    | nil => exact absurd hP hp
    | cons p0 ps =>
      simp [windowPlan, withDir_some env usr hu, hP]
  | cons x xs ih =>
    have h := ih (k + 1)
    simp only [List.cons_append, windowPlan]
    exact congrArg _ h

/-- With a resolved current user: for every configuration and every window
whose panes list is non-empty, replacing that window's own path and cmd by any
other values leaves the whole run unchanged in every world and mode: the same
processes are started in the same order with the same outcome. -/
theorem paned_window_fields_ignored (w : World) (env : Env) (usr : User)
    (hu : env.Current = some usr) (name root : String) (pre post : List Window)
    (win : Window) (hp : win.Panes ≠ []) (path cmd : String) (dry : Bool) :
    runSession w env ⟨name, root, pre ++ ⟨win.Name, path, cmd, win.Panes⟩ :: post⟩
        (State.init dry) =
      runSession w env ⟨name, root, pre ++ win :: post⟩ (State.init dry) := by
  apply runSession_congr
  intro r
  simp only [buildPlan, windowPlan_paned env usr hu r name 0 pre post win hp path cmd]

/-- An instance of `paned_window_fields_ignored`: the second window declares
panes; its own path and cmd are replaced. -/
theorem paned_window_fields_ignored_witness :
    (⟨"run", "srv", "make", [⟨"api", "go run .", false⟩, ⟨"", "", true⟩]⟩ : Window).Panes ≠ [] ∧
    runSession freshWorld ⟨some ⟨"/home/u"⟩, "/work"⟩
        ⟨"dev", "~/proj", [⟨"edit", "", "vim .", []⟩] ++
          ⟨"run", "~/elsewhere", "rm -rf x", [⟨"api", "go run .", false⟩, ⟨"", "", true⟩]⟩ :: []⟩
        (State.init false) =
      runSession freshWorld ⟨some ⟨"/home/u"⟩, "/work"⟩
        ⟨"dev", "~/proj", [⟨"edit", "", "vim .", []⟩] ++
          ⟨"run", "srv", "make", [⟨"api", "go run .", false⟩, ⟨"", "", true⟩]⟩ :: []⟩
        (State.init false) :=
  ⟨by decide, paned_window_fields_ignored freshWorld ⟨some ⟨"/home/u"⟩, "/work"⟩ ⟨"/home/u"⟩ rfl
    "dev" "~/proj" [⟨"edit", "", "vim .", []⟩] []
    ⟨"run", "srv", "make", [⟨"api", "go run .", false⟩, ⟨"", "", true⟩]⟩ (by decide)
    "~/elsewhere" "rm -rf x" false⟩

/-- C16 fails when `user.Current` fails: under the session root `~`, with the
same command outcomes, the run of a configuration whose second window declares
one pane and no path of its own returns after eight processes, while the run in
which only that window's own path is replaced by `api` panics after four.  For
a window after the first the loop expands `Join(rootDir, window.path)` before it
looks at the panes, and `expand("~/api")` dereferences the nil user. -/
theorem paned_window_path_nil_user :
    (⟨"run", "", "", [⟨"", "make", false⟩]⟩ : Window).Panes ≠ [] ∧
    runSession freshWorld ⟨none, "/work"⟩
        ⟨"dev", "~", [⟨"edit", "", "vim .", []⟩, ⟨"run", "", "", [⟨"", "make", false⟩]⟩]⟩
        (State.init false) =
      .ok () ⟨"~", false, [],
        [["tmux", "has-session", "-t", "dev"],
         ["tmux", "new-session", "-d", "-s", "dev", "-c", "~", "-n", "main"],
         ["tmux", "rename-window", "-t", "dev:1", "edit"],
         ["tmux", "send-keys", "-t", "dev:1.1", "vim .", "C-m"],
         ["tmux", "new-window", "-t", "dev:2", "-n", "run", "-c", "~"],
         ["tmux", "send-keys", "-t", "dev:2.1", "make", "C-m"],
         ["tmux", "select-window", "-t", "dev:1"],
         ["tmux", "attach", "-t", "dev"]]⟩ ∧
    runSession freshWorld ⟨none, "/work"⟩
        ⟨"dev", "~", [⟨"edit", "", "vim .", []⟩, ⟨"run", "api", "", [⟨"", "make", false⟩]⟩]⟩
        (State.init false) =
      .panic ⟨"~", false, [],
        [["tmux", "has-session", "-t", "dev"],
         ["tmux", "new-session", "-d", "-s", "dev", "-c", "~", "-n", "main"],
         ["tmux", "rename-window", "-t", "dev:1", "edit"],
         ["tmux", "send-keys", "-t", "dev:1.1", "vim .", "C-m"]]⟩ ∧
    issued (runSession freshWorld ⟨none, "/work"⟩
        ⟨"dev", "~", [⟨"edit", "", "vim .", []⟩, ⟨"run", "api", "", [⟨"", "make", false⟩]⟩]⟩
        (State.init false)) ≠
      issued (runSession freshWorld ⟨none, "/work"⟩
        ⟨"dev", "~", [⟨"edit", "", "vim .", []⟩, ⟨"run", "", "", [⟨"", "make", false⟩]⟩]⟩
        (State.init false)) ∧
    expand ⟨none, "/work"⟩ (filepath.Join "~" "api") = none :=
  ⟨by decide, rfl, rfl, by decide, by decide⟩

/-- C17: for every configuration with at least one window, replacing the first
window's path by any other value leaves the whole run unchanged, in every
world, environment and mode: the first window's path is never read. -/
theorem first_window_path_ignored (w : World) (env : Env) (name root : String)
    (w0 : Window) (rest : List Window) (path : String) (dry : Bool) :
    runSession w env ⟨name, root, ⟨w0.Name, path, w0.Cmd, w0.Panes⟩ :: rest⟩ (State.init dry) =
      runSession w env ⟨name, root, w0 :: rest⟩ (State.init dry) := by
  apply runSession_congr
  intro r
  simp only [buildPlan, windowPlan_first_path]

/-! ## The end of a fresh run -/

theorem filter_windowPlan_other (sub : String) (env : Env) (usr : User)
    (hu : env.Current = some usr) (root name : String) (k : Nat) (wins : List Window)
    (h1 : sub ≠ "send-keys") (h2 : sub ≠ "split-window") (h3 : sub ≠ "rename-window")
    (h4 : sub ≠ "new-window") :
    (calls (windowPlan env root name k wins)).filter (isCall sub) = [] := by
  induction wins generalizing k with
  | nil => simp [calls_windowPlan_nil]
  | cons win rest ih =>
    rw [calls_windowPlan_cons env usr hu, List.filter_append, List.filter_append,
      filter_windowBody _ env usr hu _ _ _ _ h1 h2, ih (k + 1)]
    split <;> simp [isCall_cons, Ne.symm h3, Ne.symm h4]

/-- C18: in every fresh successful run, whatever the number of declared windows,
the processes started end with `tmux select-window -t <name>:1` followed by
`tmux attach -t <name>`; everything else, hence every window and pane
provisioning call, comes before them, and nothing before them is a
`select-window` or an `attach` call, so exactly one `select-window` call is
issued. -/
theorem select_then_attach (w : World) (env : Env) (usr : User) (hu : env.Current = some usr)
    (sess : Session) (hw : Fresh w sess.Name) :
    (∃ before, issued (runSession w env sess (State.init false)) =
        before ++ [["tmux", "select-window", "-t", sess.Name ++ ":1"],
          ["tmux", "attach", "-t", sess.Name]] ∧
      before.filter (isCall "select-window") = [] ∧
      before.filter (isCall "attach") = []) ∧
    (issued (runSession w env sess (State.init false))).filter (isCall "select-window") =
      [["tmux", "select-window", "-t", sess.Name ++ ":1"]] := by
  have hshape : ∃ before, issued (runSession w env sess (State.init false)) =
        before ++ [["tmux", "select-window", "-t", sess.Name ++ ":1"],
          ["tmux", "attach", "-t", sess.Name]] ∧
      before.filter (isCall "select-window") = [] ∧
      before.filter (isCall "attach") = [] := by
    rw [runSession_fresh w env usr hu sess hw]
    refine ⟨hasSessionCall sess.Name ::
      ["tmux", "new-session", "-d", "-s", sess.Name, "-c",
        rootOr env (expandWith usr.HomeDir sess.Root), "-n", "main"] ::
      calls (windowPlan env (rootOr env (expandWith usr.HomeDir sess.Root)) sess.Name 0
        sess.Windows), ?_, ?_, ?_⟩
    · simp [issued, Result.state, calls_buildPlan env usr hu, attachCall]
    · simp [hasSessionCall, isCall_cons,
        filter_windowPlan_other "select-window" env usr hu _ _ _ _ (by decide) (by decide)
          (by decide) (by decide)]
    · simp [hasSessionCall, isCall_cons,
        filter_windowPlan_other "attach" env usr hu _ _ _ _ (by decide) (by decide)
          (by decide) (by decide)]
  refine ⟨hshape, ?_⟩
  obtain ⟨before, h1, h2, _⟩ := hshape
  rw [h1]
  simp [List.filter_append, h2, isCall_cons]

/-- Witness for C18: a configuration that declares exactly one window. -/
theorem select_then_attach_witness :
    Fresh freshWorld "dev" ∧
    (issued (runSession freshWorld ⟨some ⟨"/home/u"⟩, "/work"⟩
        ⟨"dev", "/srv", [⟨"edit", "", "vim .", []⟩]⟩ (State.init false))).filter
        (isCall "select-window") =
      [["tmux", "select-window", "-t", "dev" ++ ":1"]] :=
  have hf : Fresh freshWorld "dev" :=
    ⟨by decide, fun hist _ h => by simp [freshWorld, h]⟩
  ⟨hf, (select_then_attach freshWorld ⟨some ⟨"/home/u"⟩, "/work"⟩ ⟨"/home/u"⟩ rfl
    ⟨"dev", "/srv", [⟨"edit", "", "vim .", []⟩]⟩ hf).2⟩

/-! ## The steps of a build plan -/

theorem mem_withDir_some (env : Env) (path : String) (f : String → List Step) (s : Step)
    (h : s ∈ withDir env path f) :
    s = .crash ∨ ∃ dir, expand env path = some dir ∧ s ∈ f dir := by
  unfold withDir at h
  cases he : expand env path with
  | none => rw [he] at h; exact Or.inl (by simpa using h)
  | some dir => rw [he] at h; exact Or.inr ⟨dir, rfl, h⟩

theorem injectPlan_planned (name : String) (i pane : Nat) (cmdStr : String) (s : Step)
    (h : s ∈ injectPlan name i pane cmdStr) :
    cmdStr.data ≠ [] ∧
      s = .call ["send-keys", "-t", name ++ ":" ++ toString i ++ "." ++ toString pane,
        cmdStr, "C-m"] "Inject Cmds failed!" := by
  unfold injectPlan at h
  split at h
  · simp at h
  · rename_i hc
    exact ⟨hc, by simpa using h⟩

theorem splitPlan_planned (env : Env) (root name : String) (i i0 : Nat) (panes : List Pane)
    (s : Step) (h : s ∈ splitPlan env root name i i0 panes) :
    s = .crash ∨ ∃ j p, panes[j]? = some p ∧ PaneStep env root name i (i0 + j) p s := by
  induction panes generalizing i0 with
  | nil => simp [splitPlan] at h
  | cons p rest ih =>
    simp only [splitPlan, List.mem_append] at h
    rcases h with (h | h) | h
    · split at h
      · rename_i hi
        rcases mem_withDir_some _ _ _ _ h with h1 | ⟨dir, he, h1⟩
        · exact Or.inl h1
        · refine Or.inr ⟨0, p, by simp, Or.inr ⟨by omega, dir, he, ?_⟩⟩
          simpa using h1
      · simp at h
    · exact Or.inr ⟨0, p, by simp, Or.inl (injectPlan_planned _ _ _ _ _ h)⟩
    · rcases ih (i0 + 1) h with h1 | ⟨j, q, hq, hc⟩
      · exact Or.inl h1
      · refine Or.inr ⟨j + 1, q, by simpa using hq, ?_⟩
        have : i0 + (j + 1) = i0 + 1 + j := by omega
        rw [this]
        exact hc

theorem windowPlan_planned (env : Env) (root name : String) (k : Nat) (wins : List Window)
    (s : Step) (h : s ∈ windowPlan env root name k wins) :
    s = .crash ∨ ∃ i win, wins[i]? = some win ∧ WindowStep env root name (k + i) win s := by
  induction wins generalizing k with
  | nil => simp [windowPlan] at h
  | cons win rest ih =>
    simp only [windowPlan, List.mem_append] at h
    rcases h with (h | h) | h
    · split at h
      · rename_i hk
        refine Or.inr ⟨0, win, by simp, Or.inl ⟨hk, ?_⟩⟩
        simpa using h
      · rename_i hk
        rcases mem_withDir_some _ _ _ _ h with h1 | ⟨dir0, he0, h1⟩
        · exact Or.inl h1
        · cases hP : win.Panes with
          | nil =>
            rw [hP] at h1
            refine Or.inr ⟨0, win, by simp, Or.inr (Or.inl ⟨hk, dir0, ?_, ?_⟩)⟩
            · simpa [launchPath, hP] using he0
            · simpa using h1
          | cons p0 ps =>
            rw [hP] at h1
            rcases mem_withDir_some _ _ _ _ h1 with h2 | ⟨dir, he, h2⟩
            · exact Or.inl h2
            · refine Or.inr ⟨0, win, by simp, Or.inr (Or.inl ⟨hk, dir, ?_, ?_⟩)⟩
              · simpa [launchPath, hP] using he
              · simpa using h2
    · split at h
      · rcases splitPlan_planned _ _ _ _ _ _ _ h with h1 | ⟨j, p, hp, hc⟩
        · exact Or.inl h1
        · refine Or.inr ⟨0, win, by simp, Or.inr (Or.inr (Or.inr ⟨j, p, hp, ?_⟩))⟩
          simpa using hc
      · rename_i hl
        have hnil : win.Panes = [] := by
          cases hP : win.Panes with
          | nil => rfl
          | cons a as => simp [hP] at hl
        obtain ⟨hc, hs⟩ := injectPlan_planned _ _ _ _ _ h
        exact Or.inr ⟨0, win, by simp, Or.inr (Or.inr (Or.inl ⟨hnil, hc, hs⟩))⟩
    · rcases ih (k + 1) h with h1 | ⟨i, q, hq, hc⟩
      · exact Or.inl h1
      · refine Or.inr ⟨i + 1, q, by simpa using hq, ?_⟩
        have : k + (i + 1) = k + 1 + i := by omega
        rw [this]
        exact hc

theorem buildPlan_planned (env : Env) (root : String) (sess : Session) (s : Step)
    (h : s ∈ buildPlan env root sess) : Planned env root sess s := by
  simp only [buildPlan, List.mem_cons, List.mem_append, List.mem_singleton,
    List.not_mem_nil, or_false] at h
  rcases h with h | h | h
  · exact Or.inr (Or.inl h)
  · rcases windowPlan_planned _ _ _ _ _ _ h with h1 | ⟨i, win, hw, hc⟩
    · exact Or.inl h1
    · refine Or.inr (Or.inr (Or.inr ⟨i, win, hw, ?_⟩))
      simpa using hc
  · exact Or.inr (Or.inr (Or.inl h))

theorem data_eq_nil_iff (s : String) : s.data = [] ↔ s = "" := by
  constructor
  · intro h
    apply String.ext
    simpa using h
  · intro h
    rw [h]

/-- A planned `send-keys` call carries a non-empty command. -/
theorem planned_keys (env : Env) (root : String) (sess : Session) (args : List String)
    (what : String) (h : Planned env root sess (.call args what))
    (hk : isCall "send-keys" ("tmux" :: args) = true) :
    ("tmux" :: args)[4]? ≠ some "" := by
  have hne : ∀ c : String, c.data ≠ [] → some c ≠ some "" := by
    intro c hc heq
    exact hc ((data_eq_nil_iff c).2 (Option.some.inj heq))
  rcases h with h | h | h | ⟨k, win, _, ⟨_, h⟩ | ⟨_, dir, _, h⟩ | ⟨_, hc, h⟩ |
    ⟨j, p, _, ⟨hc, h⟩ | ⟨_, dir, _, h⟩⟩⟩
  · exact absurd h (by simp)
  all_goals simp only [Step.call.injEq] at h
  all_goals obtain ⟨rfl, _⟩ := h
  · simp [isCall] at hk
  · simp [isCall] at hk
  · simp [isCall] at hk
  · simp [isCall] at hk
  · exact hne _ hc
  · exact hne _ hc
  · simp [isCall] at hk

/-- The diagnostic of a planned call is the one of its subcommand. -/
theorem planned_diagnostic (env : Env) (root : String) (sess : Session) (args : List String)
    (what : String) (h : Planned env root sess (.call args what)) :
    what = diagnostic ("tmux" :: args) := by
  rcases h with h | h | h | ⟨k, win, _, ⟨_, h⟩ | ⟨_, dir, _, h⟩ | ⟨_, _, h⟩ |
    ⟨j, p, _, ⟨_, h⟩ | ⟨_, dir, _, h⟩⟩⟩
  · exact absurd h (by simp)
  all_goals simp only [Step.call.injEq] at h
  all_goals obtain ⟨rfl, rfl⟩ := h
  all_goals simp [diagnostic]

/-- A planned `new-window` call is the one for a declared window after the
first, and a planned `split-window` call the one for a pane after the first of
a declared window; its directory is that window's or pane's declared path,
joined against the session root and expanded. -/
theorem planned_origin (env : Env) (root : String) (sess : Session) (args : List String)
    (what : String) (h : Planned env root sess (.call args what)) :
    (isCall "new-window" ("tmux" :: args) = true →
      ∃ k win dir, sess.Windows[k]? = some win ∧ k ≠ 0 ∧
        expand env (filepath.Join root (launchPath win)) = some dir ∧
        "tmux" :: args = ["tmux", "new-window", "-t", sess.Name ++ ":" ++ toString (k + 1),
          "-n", win.Name, "-c", dir]) ∧
    (isCall "split-window" ("tmux" :: args) = true →
      ∃ k win j p dir, sess.Windows[k]? = some win ∧ win.Panes[j]? = some p ∧ j ≠ 0 ∧
        expand env (filepath.Join root p.Path) = some dir ∧
        "tmux" :: args = ["tmux", "split-window", if p.Hor then "-h" else "-v", "-t",
          sess.Name ++ ":" ++ toString (k + 1), "-c", dir]) := by
  rcases h with h | h | h | ⟨k, win, hw, ⟨_, h⟩ | ⟨hk0, dir, he, h⟩ | ⟨_, _, h⟩ |
    ⟨j, p, hp, ⟨_, h⟩ | ⟨hj0, dir, he, h⟩⟩⟩
  · exact absurd h (by simp)
  all_goals simp only [Step.call.injEq] at h
  all_goals obtain ⟨rfl, _⟩ := h
  · exact ⟨fun hk => absurd hk (by simp [isCall]), fun hk => absurd hk (by simp [isCall])⟩
  · exact ⟨fun hk => absurd hk (by simp [isCall]), fun hk => absurd hk (by simp [isCall])⟩
  · exact ⟨fun hk => absurd hk (by simp [isCall]), fun hk => absurd hk (by simp [isCall])⟩
  · exact ⟨fun _ => ⟨k, win, dir, hw, hk0, he, rfl⟩, fun hk => absurd hk (by simp [isCall])⟩
  · exact ⟨fun hk => absurd hk (by simp [isCall]), fun hk => absurd hk (by simp [isCall])⟩
  · exact ⟨fun hk => absurd hk (by simp [isCall]), fun hk => absurd hk (by simp [isCall])⟩
  · exact ⟨fun hk => absurd hk (by simp [isCall]),
      fun _ => ⟨k, win, j, p, dir, hw, hp, hj0, he, rfl⟩⟩

/-! ## Command injection -/

theorem injectCmds_empty (w : World) (session : String) (win pane : Nat) (st : State) :
    injectCmds w session win pane "" st = .ok () st := by
  rw [injectCmds_plan]
  rfl

theorem injectCmds_normal (w : World) (session : String) (win pane : Nat) (cmdStr : String)
    (st : State) (hd : st.dryRun = false) (hc : cmdStr ≠ "") :
    injectCmds w session win pane cmdStr st =
      match w st.spawned ["tmux", "send-keys", "-t",
          session ++ ":" ++ toString win ++ "." ++ toString pane, cmdStr, "C-m"] with
      | none => .ok () (st.push ["tmux", "send-keys", "-t",
          session ++ ":" ++ toString win ++ "." ++ toString pane, cmdStr, "C-m"])
      | some e => .fatal ("Inject Cmds failed!" ++ " " ++ e ++ "\n")
          (st.push ["tmux", "send-keys", "-t",
            session ++ ":" ++ toString win ++ "." ++ toString pane, cmdStr, "C-m"]) := by
  have hne : cmdStr.data ≠ [] := fun h => hc ((data_eq_nil_iff cmdStr).1 h)
  rw [injectCmds_plan]
  simp only [injectPlan, hne, if_false]
  rw [runPlan_single, must_normal _ _ _ _ hd]

/-- In a fresh successful run the command of a window without panes is typed
into pane 1 of that window. -/
theorem mem_calls_windowPlan_keys (env : Env) (usr : User) (hu : env.Current = some usr)
    (root name : String) (k i : Nat) (wins : List Window) (win : Window)
    (hw : wins[i]? = some win) (hp : win.Panes = []) (hc : win.Cmd.data ≠ []) :
    ["tmux", "send-keys", "-t", name ++ ":" ++ toString (k + i + 1) ++ "." ++ toString 1,
      win.Cmd, "C-m"] ∈ calls (windowPlan env root name k wins) := by
  induction wins generalizing k i with
  | nil => simp at hw
  | cons x rest ih =>
    rw [calls_windowPlan_cons env usr hu]
    cases i with
    | zero =>
      simp only [List.getElem?_cons_zero, Option.some.injEq] at hw
      subst hw
      simp [hp, calls_injectPlan, hc]
    | succ i =>
      simp only [List.getElem?_cons_succ] at hw
      have := ih (k + 1) i hw
      have e : k + 1 + i + 1 = k + (i + 1) + 1 := by omega
      rw [e] at this
      exact List.mem_append_right _ this

/-- C11: `injectCmds` with the empty command returns at once, starting no
process and logging nothing; with a non-empty command, in normal mode, it
starts exactly one process, `tmux send-keys -t <session>:<win>.<pane> <cmd>
C-m`, and returns or stops the process as that call succeeds or fails.  Hence
no `send-keys` call started in any run, in any world, environment and mode,
carries an empty command, and in a fresh successful run the non-empty cmd of a
window without panes at 0-based position `k` is typed into `<name>:<k+1>.1`. -/
theorem inject_commands (w : World) (session : String) (win pane : Nat) (cmdStr : String)
    (st : State) :
    injectCmds w session win pane "" st = .ok () st ∧
    (st.dryRun = false → cmdStr ≠ "" →
      injectCmds w session win pane cmdStr st =
        match w st.spawned ["tmux", "send-keys", "-t",
            session ++ ":" ++ toString win ++ "." ++ toString pane, cmdStr, "C-m"] with
        | none => .ok () (st.push ["tmux", "send-keys", "-t",
            session ++ ":" ++ toString win ++ "." ++ toString pane, cmdStr, "C-m"])
        | some e => .fatal ("Inject Cmds failed!" ++ " " ++ e ++ "\n")
            (st.push ["tmux", "send-keys", "-t",
              session ++ ":" ++ toString win ++ "." ++ toString pane, cmdStr, "C-m"])) ∧
    (∀ (env : Env) (sess : Session) (dry : Bool),
      ∀ argv ∈ issued (runSession w env sess (State.init dry)),
        isCall "send-keys" argv = true → argv[4]? ≠ some "") ∧
    (∀ (env : Env) (usr : User) (sess : Session) (k : Nat) (win : Window),
      env.Current = some usr → Fresh w sess.Name → sess.Windows[k]? = some win →
      win.Panes = [] → win.Cmd ≠ "" →
      ["tmux", "send-keys", "-t", sess.Name ++ ":" ++ toString (k + 1) ++ "." ++ toString 1,
        win.Cmd, "C-m"] ∈ issued (runSession w env sess (State.init false))) := by
  refine ⟨injectCmds_empty w session win pane st,
    fun hd hc => injectCmds_normal w session win pane cmdStr st hd hc, ?_, ?_⟩
  · intro env sess dry argv h hk
    rcases runSession_spawned_mem w env sess dry argv h with h1 | h1 | ⟨root, args, what, e, m⟩
    · rw [h1] at hk; simp [hasSessionCall, isCall] at hk
    · rw [h1] at hk; simp [attachCall, isCall] at hk
    · rw [e] at hk ⊢
      exact planned_keys env root sess args what (buildPlan_planned env root sess _ m) hk
  · intro env usr sess k win hu hw hk hp hc
    have hne : win.Cmd.data ≠ [] := fun h => hc ((data_eq_nil_iff win.Cmd).1 h)
    have hm := mem_calls_windowPlan_keys env usr hu
      (rootOr env (expandWith usr.HomeDir sess.Root)) sess.Name 0 k sess.Windows win hk hp hne
    rw [runSession_fresh w env usr hu sess hw]
    simp only [issued, Result.state, calls_buildPlan env usr hu]
    simp only [Nat.zero_add] at hm
    simp [hm]

/-- Witness for C11: a non-empty command typed into pane 2 of window 3 in a
world where every call succeeds. -/
theorem inject_commands_witness :
    injectCmds liveWorld "dev" 3 2 "" ⟨"/srv", false, [], []⟩ =
      .ok () ⟨"/srv", false, [], []⟩ ∧
    injectCmds liveWorld "dev" 3 2 "go test ./..." ⟨"/srv", false, [], []⟩ =
      .ok () ⟨"/srv", false, [],
        [["tmux", "send-keys", "-t", "dev:3.2", "go test ./...", "C-m"]]⟩ :=
  have h := inject_commands liveWorld "dev" 3 2 "go test ./..." ⟨"/srv", false, [], []⟩
  ⟨h.1, (h.2.1 rfl (by decide)).trans (by
    have t : "dev" ++ ":" ++ toString 3 ++ "." ++ toString 2 = "dev:3.2" := by decide
    simp only [liveWorld, State.push, t, List.nil_append])⟩

/-! ## The session root -/

/-- The processes a plan adds are calls of the plan. -/
theorem runPlan_spawned_ext (w : World) (plan : List Step) (st : State) :
    ∃ more, (runPlan w plan st).state.spawned = st.spawned ++ more ∧
      ∀ argv ∈ more, ∃ args what, argv = "tmux" :: args ∧ Step.call args what ∈ plan := by
  induction plan generalizing st with
  | nil => exact ⟨[], by simp [runPlan_nil, Result.state], by simp⟩
  | cons c rest ih =>
    cases c with
    | crash => exact ⟨[], by simp [runPlan_crash, Result.state], by simp⟩
    | call args what =>
      rw [runPlan_call]
      have hm := must_spawned w args what st
      have lift : ∀ l : List (List String),
          (∀ argv ∈ l, argv = "tmux" :: args ∨
            ∃ a1 w1, argv = "tmux" :: a1 ∧ Step.call a1 w1 ∈ rest) →
          ∀ argv ∈ l, ∃ a1 w1, argv = "tmux" :: a1 ∧
            Step.call a1 w1 ∈ Step.call args what :: rest := by
        intro l hl argv ha
        rcases hl argv ha with h | ⟨a1, w1, e1, m1⟩
        · exact ⟨args, what, h, List.mem_cons_self _ _⟩
        · exact ⟨a1, w1, e1, List.mem_cons_of_mem _ m1⟩
      have stop : ∃ more, (must w args what st).state.spawned = st.spawned ++ more ∧
          ∀ argv ∈ more, argv = "tmux" :: args ∨
            ∃ a1 w1, argv = "tmux" :: a1 ∧ Step.call a1 w1 ∈ rest := by
        rcases hm with hm | hm
        · exact ⟨[], by simp [hm], by simp⟩
        · exact ⟨["tmux" :: args], hm, by simp⟩
      cases hr : must w args what st with
      | ok u st1 =>
        rw [hr] at stop
        simp only [Result.state] at stop
        obtain ⟨m0, h0, hm0⟩ := stop
        obtain ⟨m1, h1, hm1⟩ := ih st1
        refine ⟨m0 ++ m1, by rw [h1, h0, List.append_assoc], lift _ ?_⟩
        intro argv ha
        rcases List.mem_append.1 ha with ha | ha
        · exact hm0 argv ha
        · exact Or.inr (hm1 argv ha)
      | fatal msg st1 =>
        rw [hr] at stop
        obtain ⟨m0, h0, hm0⟩ := stop
        exact ⟨m0, h0, lift _ hm0⟩
      | panic st1 =>
        rw [hr] at stop
        obtain ⟨m0, h0, hm0⟩ := stop
        exact ⟨m0, h0, lift _ hm0⟩

/-- A normal-mode run that finds no session and resolves its root `r` starts
with the existence check and `new-session` in the session root, keeps that root
in `rootDir`, and afterwards only starts calls of the build plan for that root
and the attach. -/
theorem runSession_built (w : World) (env : Env) (sess : Session) (r : String)
    (he : expand env sess.Root = some r)
    (hhas : w [] (hasSessionCall sess.Name) ≠ none) :
    ∃ more, issued (runSession w env sess (State.init false)) =
        hasSessionCall sess.Name ::
        ["tmux", "new-session", "-d", "-s", sess.Name, "-c", rootOr env r, "-n", "main"] ::
        more ∧
      (runSession w env sess (State.init false)).state.rootDir = rootOr env r ∧
      ∀ argv ∈ more, argv = attachCall sess.Name ∨
        ∃ args what, argv = "tmux" :: args ∧
          Step.call args what ∈ buildPlan env (rootOr env r) sess := by
  rw [runSession_normal w env sess _ rfl]
  cases hw : w (State.init false).spawned (hasSessionCall sess.Name) with
  | none => exact absurd hw hhas
  | some e0 =>
    simp only [he, Prog.bind_apply]
    have hk := runPlan_keeps w (buildPlan env (rootOr env r) sess)
      (((State.init false).push (hasSessionCall sess.Name)).withRoot (rootOr env r))
    obtain ⟨more, hext, hmem⟩ := runPlan_spawned_ext w (buildPlan env (rootOr env r) sess)
      (((State.init false).push (hasSessionCall sess.Name)).withRoot (rootOr env r))
    have hhead : ∃ more1, more =
        ["tmux", "new-session", "-d", "-s", sess.Name, "-c", rootOr env r, "-n", "main"] ::
          more1 := by
      have hx := hext
      rw [buildPlan, runPlan_call] at hx
      have hn := must_normal w ["new-session", "-d", "-s", sess.Name, "-c", rootOr env r,
        "-n", "main"] "Session creation failed!"
        (((State.init false).push (hasSessionCall sess.Name)).withRoot (rootOr env r)) rfl
      rw [hn] at hx
      cases hw1 : w (((State.init false).push (hasSessionCall sess.Name)).withRoot
          (rootOr env r)).spawned
          ["tmux", "new-session", "-d", "-s", sess.Name, "-c", rootOr env r, "-n", "main"] with
      | some e1 =>
        rw [hw1] at hx
        simp only [Result.state, State.push, State.withRoot, State.init, List.nil_append,
          List.cons_append, List.cons.injEq, true_and] at hx
        exact ⟨[], hx.symm⟩
      | none =>
        rw [hw1] at hx
        simp only [] at hx
        obtain ⟨m1, h1, _⟩ := runPlan_spawned_ext w
          (windowPlan env (rootOr env r) sess.Name 0 sess.Windows ++
            [Step.call ["select-window", "-t", sess.Name ++ ":1"] "Select window failed!"])
          ((((State.init false).push (hasSessionCall sess.Name)).withRoot (rootOr env r)).push
            ["tmux", "new-session", "-d", "-s", sess.Name, "-c", rootOr env r, "-n", "main"])
        rw [h1] at hx
        simp only [State.push, State.withRoot, State.init, List.nil_append,
          List.cons_append, List.cons.injEq, true_and] at hx
        exact ⟨m1, hx.symm⟩
    obtain ⟨more1, hm1⟩ := hhead
    have hmem1 : ∀ argv ∈ more1, ∃ args what, argv = "tmux" :: args ∧
        Step.call args what ∈ buildPlan env (rootOr env r) sess := by
      intro argv ha
      exact hmem argv (by rw [hm1]; exact List.mem_cons_of_mem _ ha)
    cases hr : runPlan w (buildPlan env (rootOr env r) sess)
        (((State.init false).push (hasSessionCall sess.Name)).withRoot (rootOr env r)) with
    | ok u st1 =>
      rw [hr] at hk hext
      simp only [Result.state] at hk hext
      simp only []
      rw [attach_normal w sess.Name st1 (by rw [hk.2]; rfl)]
      refine ⟨more1 ++ [attachCall sess.Name], ?_, ?_, ?_⟩
      · simp [issued, Result.state, State.push, hext, hm1, State.withRoot, State.init]
      · simp [Result.state, State.push, hk.1, State.withRoot]
      · intro argv ha
        rcases List.mem_append.1 ha with ha | ha
        · exact Or.inr (hmem1 argv ha)
        · exact Or.inl (by simpa using ha)
    | fatal msg st1 =>
      rw [hr] at hk hext
      simp only [Result.state] at hk hext
      refine ⟨more1, ?_, ?_, fun argv ha => Or.inr (hmem1 argv ha)⟩
      · simp [issued, Result.state, hext, hm1, State.push, State.withRoot, State.init]
      · simp [Result.state, hk.1, State.withRoot]
    | panic st1 =>
      rw [hr] at hk hext
      simp only [Result.state] at hk hext
      refine ⟨more1, ?_, ?_, fun argv ha => Or.inr (hmem1 argv ha)⟩
      · simp [issued, Result.state, hext, hm1, State.push, State.withRoot, State.init]
      · simp [Result.state, hk.1, State.withRoot]

theorem expandWith_ne_empty (home path : String) (hh : home ≠ "") (hp : path ≠ "") :
    (expandWith home path).data ≠ [] := by
  unfold expandWith
  split
  · have hne : home.data ≠ [] := fun h => hh ((data_eq_nil_iff home).1 h)
    simp only [filepath.Join, hne, ne_eq, not_false_eq_true, if_true]
    exact filepath.Clean_ne_empty _
  · exact fun h => hp ((data_eq_nil_iff path).1 h)

/-- C15 as stated fails when the declared root is not empty but expands to the
empty string: with the home directory `""` and the declared root `~/`,
`expand(root)` is `Join("", "")`, the empty string, and `new-session` is given
the working directory `/work`, as is every later window. -/
theorem empty_expansion_uses_cwd :
    (⟨"dev", "~/", [⟨"a", "", "", []⟩, ⟨"b", "x", "", []⟩]⟩ : Session).Root ≠ "" ∧
    expand ⟨some ⟨""⟩, "/work"⟩ "~/" = some "" ∧
    issued (runSession freshWorld ⟨some ⟨""⟩, "/work"⟩
        ⟨"dev", "~/", [⟨"a", "", "", []⟩, ⟨"b", "x", "", []⟩]⟩ (State.init false)) =
      [["tmux", "has-session", "-t", "dev"],
       ["tmux", "new-session", "-d", "-s", "dev", "-c", "/work", "-n", "main"],
       ["tmux", "rename-window", "-t", "dev:1", "a"],
       ["tmux", "new-window", "-t", "dev:2", "-n", "b", "-c", "/work/x"],
       ["tmux", "select-window", "-t", "dev:1"],
       ["tmux", "attach", "-t", "dev"]] ∧
    "/work" ≠ "" := by
  decide

/-- C15, amended: in every normal-mode run in which the existence check fails
and `expand(root)` returns a path `r`, the second process started is `tmux
new-session -d -s <name> -c D -n main`, where `D` is `r` when `r` is not empty
and the current working directory when `r` is empty.  `r` is empty when the
declared root is empty; for a non-empty declared root it is not empty, unless
the resolved user has the empty home directory.  `rootDir` holds `D` when the
run ends, and every later path is joined against it: a `new-window` call
started is the call for a declared window at 0-based position `k >= 1`, with
directory `expand(Join(D, p))` for that window's first pane path or else its own
path `p`, and a `split-window` call started is the call for a pane at 0-based
position `j >= 1` of a declared window, with directory
`expand(Join(D, pane.path))`. -/
theorem session_root (w : World) (env : Env) (sess : Session) (r : String)
    (he : expand env sess.Root = some r)
    (hhas : w [] ["tmux", "has-session", "-t", sess.Name] ≠ none) :
    ∃ D, (r ≠ "" → D = r) ∧ (r = "" → D = env.Getwd) ∧
      (sess.Root = "" → r = "") ∧
      (sess.Root ≠ "" → (∀ usr, env.Current = some usr → usr.HomeDir ≠ "") → r ≠ "") ∧
      (∃ more, issued (runSession w env sess (State.init false)) =
        ["tmux", "has-session", "-t", sess.Name] ::
        ["tmux", "new-session", "-d", "-s", sess.Name, "-c", D, "-n", "main"] :: more) ∧
      (runSession w env sess (State.init false)).state.rootDir = D ∧
      ∀ argv ∈ issued (runSession w env sess (State.init false)),
        (isCall "new-window" argv = true →
          ∃ k win dir, sess.Windows[k]? = some win ∧ k ≠ 0 ∧
            expand env (filepath.Join D (launchPath win)) = some dir ∧
            argv = ["tmux", "new-window", "-t", sess.Name ++ ":" ++ toString (k + 1),
              "-n", win.Name, "-c", dir]) ∧
        (isCall "split-window" argv = true →
          ∃ k win j p dir, sess.Windows[k]? = some win ∧ win.Panes[j]? = some p ∧ j ≠ 0 ∧
            expand env (filepath.Join D p.Path) = some dir ∧
            argv = ["tmux", "split-window", if p.Hor then "-h" else "-v", "-t",
              sess.Name ++ ":" ++ toString (k + 1), "-c", dir]) := by
  obtain ⟨more, hiss, hroot, hmem⟩ := runSession_built w env sess r he hhas
  refine ⟨rootOr env r, ?_, ?_, ?_, ?_, ⟨more, hiss⟩, hroot, ?_⟩
  · intro hne
    have : r.data ≠ [] := fun h => hne ((data_eq_nil_iff r).1 h)
    simp [rootOr, this]
  · intro h0
    rw [h0]
    rfl
  · intro h0
    have hpre : strings.HasPrefix "" "~/" = false := by decide
    rw [h0] at he
    simp only [expand, hpre, Bool.false_eq_true, if_false, Option.some.injEq] at he
    exact he.symm
  · intro hne hhome h0
    cases hc : env.Current with
    | some usr =>
      rw [expand_some env usr hc] at he
      have := expandWith_ne_empty usr.HomeDir sess.Root (hhome usr hc) hne
      rw [Option.some.inj he, h0] at this
      exact this rfl
    | none =>
      cases hp : strings.HasPrefix sess.Root "~/" with
      | true => simp [expand, hp, hc] at he
      | false =>
        rw [expand_of_not_home env sess.Root hp] at he
        exact hne ((Option.some.inj he).trans h0)
  · intro argv ha
    rw [hiss] at ha
    simp only [List.mem_cons] at ha
    rcases ha with h | h | h
    · subst h
      exact ⟨fun hk => absurd hk (by simp [hasSessionCall, isCall]),
        fun hk => absurd hk (by simp [hasSessionCall, isCall])⟩
    · subst h
      exact ⟨fun hk => absurd hk (by simp [isCall]), fun hk => absurd hk (by simp [isCall])⟩
    · rcases hmem argv h with h1 | ⟨args, what, e, m⟩
      · subst h1
        exact ⟨fun hk => absurd hk (by simp [attachCall, isCall]),
          fun hk => absurd hk (by simp [attachCall, isCall])⟩
      · rw [e]
        exact planned_origin env _ sess args what (buildPlan_planned env _ sess _ m)

/-- Witness for C15: a declared root `~/proj`, and a second window with a path
of its own. -/
theorem session_root_witness :
    expand ⟨some ⟨"/home/u"⟩, "/work"⟩ "~/proj" = some "/home/u/proj" ∧
    freshWorld [] ["tmux", "has-session", "-t", "dev"] ≠ none ∧
    ∃ D, (("/home/u/proj" : String) ≠ "" → D = "/home/u/proj") ∧
      (∃ more, issued (runSession freshWorld ⟨some ⟨"/home/u"⟩, "/work"⟩
          ⟨"dev", "~/proj", [⟨"edit", "", "", []⟩, ⟨"run", "api", "", []⟩]⟩
          (State.init false)) =
        ["tmux", "has-session", "-t", "dev"] ::
        ["tmux", "new-session", "-d", "-s", "dev", "-c", D, "-n", "main"] :: more) := by
  obtain ⟨D, h1, _, _, _, h3, _⟩ := session_root freshWorld ⟨some ⟨"/home/u"⟩, "/work"⟩
    ⟨"dev", "~/proj", [⟨"edit", "", "", []⟩, ⟨"run", "api", "", []⟩]⟩ "/home/u/proj"
    (by decide) (by decide)
  exact ⟨by decide, by decide, D, h1, h3⟩

/-! ## Failing calls -/

theorem calls_eq_map (plan : List Step) (hc : Step.crash ∉ plan) :
    calls plan = plan.map Step.argv := by
  induction plan with
  | nil => rfl
  | cons s rest ih =>
    cases s with
    | crash => simp at hc
    | call args what =>
      simp only [List.mem_cons, not_or] at hc
      simp [calls, Step.argv, ih hc.2]

/-- A plan whose calls succeed up to one that fails stops the process at that
call, with the diagnostic of that step. -/
theorem runPlan_fail (w : World) (pre post : List Step) (args : List String)
    (what e : String) (st : State) (hd : st.dryRun = false) (hc : Step.crash ∉ pre)
    (hok : ∀ p1 a1 w1 r1, pre = p1 ++ Step.call a1 w1 :: r1 →
      w (st.spawned ++ calls p1) ("tmux" :: a1) = none)
    (hfail : w (st.spawned ++ calls pre) ("tmux" :: args) = some e) :
    runPlan w (pre ++ Step.call args what :: post) st =
      .fatal (what ++ " " ++ e ++ "\n")
        ⟨st.rootDir, false, st.runWall, st.spawned ++ calls pre ++ ["tmux" :: args]⟩ := by
  induction pre generalizing st with
  | nil =>
    simp only [calls, List.append_nil] at hfail
    rw [List.nil_append, runPlan_call, must_normal _ _ _ _ hd, hfail]
    simp [State.push, calls, hd]
  | cons s rest ih =>
    cases s with
    | crash => simp at hc
    | call a1 w1 =>
      simp only [List.mem_cons, not_or] at hc
      have h0 := hok [] a1 w1 rest rfl
      simp only [calls, List.append_nil] at h0
      rw [List.cons_append, runPlan_call, must_normal _ _ _ _ hd, h0]
      simp only []
      rw [ih (st.push ("tmux" :: a1)) hd hc.2]
      · simp [State.push, calls]
      · intro p1 a2 w2 r1 hsp
        have := hok (Step.call a1 w1 :: p1) a2 w2 r1 (by rw [hsp]; rfl)
        simpa [State.push, calls] using this
      · simpa [State.push, calls] using hfail

/-- C14: for a resolved current user and a normal-mode run in which the
existence check fails: if the all-success sequence of processes is `pre ++ c ::
post` with `c` neither its first element (the existence check) nor its last
(the attach), so that `c` is a `new-session`, `rename-window`, `new-window`,
`split-window`, `send-keys` or `select-window` call, and in the world of the
run the calls of `pre` after the first succeed and `c` fails, then the run
stops in `log.Fatalf` with the diagnostic of `c`, having started exactly `pre`
and `c`: no retry, no later call, no attach. -/
theorem failing_call_is_fatal (w : World) (env : Env) (usr : User)
    (hu : env.Current = some usr) (sess : Session)
    (pre post : List (List String)) (c : List String) (e : String)
    (hsplit : issued (runSession freshWorld env sess (State.init false)) = pre ++ c :: post)
    (hpre : pre ≠ []) (hpost : post ≠ [])
    (hhas : w [] ["tmux", "has-session", "-t", sess.Name] ≠ none)
    (hok : ∀ p1 c1 r1, pre = p1 ++ c1 :: r1 → p1 ≠ [] → w p1 c1 = none)
    (hfail : w pre c = some e) :
    runSession w env sess (State.init false) =
      .fatal (diagnostic c ++ " " ++ e ++ "\n")
        ⟨(runSession freshWorld env sess (State.init false)).state.rootDir, false, [],
          pre ++ [c]⟩ := by
  have hF : Fresh freshWorld sess.Name :=
    ⟨by simp [freshWorld], fun hist _ h => by simp [freshWorld, h]⟩
  have hfree := buildPlan_crashFree env usr hu
    (rootOr env (expandWith usr.HomeDir sess.Root)) sess
  rw [runSession_fresh freshWorld env usr hu sess hF] at hsplit ⊢
  simp only [issued, Result.state] at hsplit ⊢
  rw [calls_eq_map _ hfree] at hsplit
  -- the split of the sequence is a split of the plan
  cases pre with
  | nil => exact absurd rfl hpre
  | cons p0 pre1 =>
    rcases List.eq_nil_or_concat post with h | ⟨post1, l, h⟩
    · exact absurd h hpost
    · rw [h, List.concat_eq_append] at hsplit
      simp only [List.cons_append, List.cons.injEq] at hsplit
      obtain ⟨hp0, hrest⟩ := hsplit
      have hrest2 : (buildPlan env (rootOr env (expandWith usr.HomeDir sess.Root)) sess).map
          Step.argv ++ [attachCall sess.Name] = (pre1 ++ c :: post1) ++ [l] := by
        rw [hrest]; simp
      have hmap := List.append_inj_left' hrest2 rfl
      obtain ⟨l1, l2, hplan, hl1, hl2⟩ := List.map_eq_append_iff.1 hmap
      obtain ⟨s, l3, hl2e, hs, _⟩ := List.map_eq_cons_iff.1 hl2
      subst hl2e
      have hfree1 : Step.crash ∉ l1 := fun hm => hfree (by rw [hplan]; simp [hm])
      cases s with
      | crash => exact absurd (by rw [hplan]; simp) hfree
      | call args what =>
        simp only [Step.argv] at hs
        have hdiag : what = diagnostic c := by
          rw [← hs]
          exact planned_diagnostic env _ sess args what
            (buildPlan_planned env _ sess _ (by rw [hplan]; simp))
        have hcalls1 : calls l1 = pre1 := by rw [calls_eq_map _ hfree1, hl1]
        rw [runSession_normal w env sess _ rfl, expand_some env usr hu]
        cases hw : w (State.init false).spawned (hasSessionCall sess.Name) with
        | none => exact absurd hw hhas
        | some e0 =>
          simp only [Prog.bind_apply]
          rw [hplan, runPlan_fail w l1 l3 args what e _ rfl hfree1]
          · simp [State.push, State.withRoot, State.init, hcalls1, hp0, hs, hdiag]
          · intro p1 a1 w1 r1 hsp
            have hfree2 : Step.crash ∉ p1 := fun hm => hfree1 (by rw [hsp]; simp [hm])
            have hfree3 : Step.crash ∉ r1 := fun hm => hfree1 (by rw [hsp]; simp [hm])
            have := hok (hasSessionCall sess.Name :: calls p1) ("tmux" :: a1) (calls r1)
              (by
                rw [← hp0, ← hl1, hsp, calls_eq_map _ hfree2, calls_eq_map _ hfree3]
                simp [Step.argv])
              (by simp)
            simpa [State.push, State.withRoot, State.init] using this
          · have : w (p0 :: pre1) c = some e := hfail
            rw [← hp0, ← hcalls1, ← hs] at this
            simpa [State.push, State.withRoot, State.init] using this

/-- Witness for C14: with two windows, the `new-window` call, started after four
other processes, fails. -/
theorem failing_call_is_fatal_witness :
    runSession (failAt 4) ⟨some ⟨"/home/u"⟩, "/work"⟩
        ⟨"dev", "/srv", [⟨"edit", "", "vim .", []⟩, ⟨"run", "", "go run .", []⟩]⟩
        (State.init false) =
      .fatal (diagnostic ["tmux", "new-window", "-t", "dev:2", "-n", "run", "-c", "/srv"] ++
          " " ++ "exit status 1" ++ "\n")
        ⟨(runSession freshWorld ⟨some ⟨"/home/u"⟩, "/work"⟩
            ⟨"dev", "/srv", [⟨"edit", "", "vim .", []⟩, ⟨"run", "", "go run .", []⟩]⟩
            (State.init false)).state.rootDir, false, [],
          [["tmux", "has-session", "-t", "dev"],
           ["tmux", "new-session", "-d", "-s", "dev", "-c", "/srv", "-n", "main"],
           ["tmux", "rename-window", "-t", "dev:1", "edit"],
           ["tmux", "send-keys", "-t", "dev:1.1", "vim .", "C-m"]] ++
          [["tmux", "new-window", "-t", "dev:2", "-n", "run", "-c", "/srv"]]⟩ :=
  failing_call_is_fatal (failAt 4) ⟨some ⟨"/home/u"⟩, "/work"⟩ ⟨"/home/u"⟩ rfl
    ⟨"dev", "/srv", [⟨"edit", "", "vim .", []⟩, ⟨"run", "", "go run .", []⟩]⟩
    [["tmux", "has-session", "-t", "dev"],
     ["tmux", "new-session", "-d", "-s", "dev", "-c", "/srv", "-n", "main"],
     ["tmux", "rename-window", "-t", "dev:1", "edit"],
     ["tmux", "send-keys", "-t", "dev:1.1", "vim .", "C-m"]]
    [["tmux", "send-keys", "-t", "dev:2.1", "go run .", "C-m"],
     ["tmux", "select-window", "-t", "dev:1"],
     ["tmux", "attach", "-t", "dev"]]
    ["tmux", "new-window", "-t", "dev:2", "-n", "run", "-c", "/srv"] "exit status 1"
    (by decide) (by decide) (by decide) (by decide)
    (by
      intro p1 c1 r1 h hne
      have hl := congrArg List.length h
      simp only [List.length_cons, List.length_nil, List.length_append] at hl
      have h4 : p1.length ≠ 4 := by omega
      simp [failAt, hne, h4])
    (by decide)

end Tdev
